import Mathlib

/-
Verification of the analytics aggregation engine of the dashmon dashboard
(src/components/analytics/AnalyticsView.tsx).

The four builders `generateLeaderboardData`, `generatePerformanceData`,
`generateTrendData` and `generateCompositionData` are embedded as pure Lean
functions over a list of report records.  JavaScript semantics is modelled
explicitly:

* JS objects used as string-keyed dictionaries preserve key insertion order,
  so they are embedded as association lists (`lookupA` / `updA`);
* JS truthiness tests (`!sbuName`, `!report.calculated_score`, ...) treat
  `null`/`undefined`, the empty string and the number 0 as falsy
  (`truthyS`, `truthyQ`);
* JS numbers are embedded as rationals; `Math.round` is half-up rounding
  (`jsRound`) and `Number(x.toFixed(1))` is half-up rounding to one decimal
  (`toFixed1`);
* `Array.prototype.sort` with comparator `(a, b) => b.score - a.score` is the
  stable descending-by-score sort, embedded as a stable insertion sort
  (`sortDesc`);
* `Math.random()` (used only for the leaderboard `change` field) is modelled
  by an explicit stream `rand : Nat → ℚ` of draws, consumed one draw per
  produced leaderboard entry; the final `change` string
  `c > 0 ? '+' + c.toFixed(1) : c.toFixed(1)` is abstracted to its two
  determining components, the sign flag and the 1-decimal value;
* `new Date(created_at).toLocaleDateString('id-ID', { month: 'short' })`
  is modelled by storing the calendar month of `created_at` in the record and
  mapping it through the locale month-name table (`monthShortId`); the year of
  `created_at` is also stored, and — exactly as in the source — never used.
-/

set_option maxHeartbeats 1000000
set_option maxRecDepth 8000

namespace Dashmon

/-! ### JS-semantics helpers -/

/-- JS truthiness filter for an optional string: `null`/`undefined` and the
empty string are falsy. -/
def truthyS : Option String → Option String
  | some s => if s = "" then none else some s
  | none => none

/-- JS truthiness filter for an optional number: `null`/`undefined` and 0 are
falsy. -/
def truthyQ : Option ℚ → Option ℚ
  | some q => if q = 0 then none else some q
  | none => none

/-- `Math.round`: round half up to the nearest integer. -/
def jsRound (q : ℚ) : ℤ := ⌊q + 1 / 2⌋

/-- `Number(x.toFixed(1))`: round half up to one decimal place. -/
def toFixed1 (q : ℚ) : ℚ := (⌊q * 10 + 1 / 2⌋ : ℚ) / 10

/-- `xs.reduce((sum, x) => sum + x, 0)`. -/
def qsum (l : List ℚ) : ℚ := List.foldl (fun a b => a + b) 0 l

/-- `xs.reduce((sum, x) => sum + x, 0) / xs.length`. -/
def qmean (l : List ℚ) : ℚ := qsum l / (l.length : ℚ)

/-! ### Data model -/

/-- The joined `profiles` row of a report (`profiles!reports_user_id_fkey`). -/
structure Profile where
  sbu_name : Option String
  deriving DecidableEq

/-- One report record as fetched by `fetchAnalyticsData`.  `created_at` is
represented by its calendar year and month, the only parts the analytics code
consumes (via the month-only locale format). -/
structure Report where
  status : String
  calculated_score : Option ℚ
  indicator_type : Option String
  created_year : Nat
  created_month : Nat
  profiles : Option Profile
  deriving DecidableEq

/-- `report.profiles?.sbu_name`. -/
def sbuNameOf (r : Report) : Option String := r.profiles.bind (fun p => p.sbu_name)

/-- Convenience constructor for concrete test records. -/
def mkReport (u : String) (ind : Option String) (sc : Option ℚ) (st : String)
    (y m : Nat) : Report :=
  { status := st, calculated_score := sc, indicator_type := ind,
    created_year := y, created_month := m, profiles := some ⟨some u⟩ }

/-! ### Association lists: JS objects as string-keyed, insertion-ordered maps -/

/-- Property lookup `obj[k]` on a string-keyed JS object. -/
def lookupA (k : String) : List (String × β) → Option β
  | [] => none
  | p :: rest => if p.1 = k then some p.2 else lookupA k rest

/-- Property write on a string-keyed JS object: update in place when the key
exists, otherwise append the key at the end (JS insertion order). -/
def updA (k : String) (o : β) (f : β → β) : List (String × β) → List (String × β)
  | [] => [(k, o)]
  | p :: rest => if p.1 = k then (p.1, f p.2) :: rest else p :: updA k o f rest

/-- The keys of a JS object in insertion order (`Object.keys`). -/
def assocKeys (l : List (String × β)) : List String := l.map Prod.fst

/-- One step of a grouping `forEach` loop: `key` extracts the group key and the
payload (returning `none` for records the loop skips), `one` builds a fresh
accumulator and `add` extends an existing one. -/
def gStep (key : α → Option (String × γ)) (one : γ → β) (add : β → γ → β)
    (acc : List (String × β)) (a : α) : List (String × β) :=
  match key a with
  | none => acc
  | some (k, g) => updA k (one g) (fun b => add b g) acc

/-- A whole grouping `forEach` loop starting from the empty object. -/
def groupUpd (key : α → Option (String × γ)) (one : γ → β) (add : β → γ → β)
    (l : List α) : List (String × β) :=
  List.foldl (gStep key one add) [] l

/-- The payloads of the records that a grouping loop files under key `k`,
in input order. -/
def gvals (key : α → Option (String × γ)) (k : String) : List α → List γ
  | [] => []
  | a :: l =>
    match key a with
    | some (k', g) => if k' = k then g :: gvals key k l else gvals key k l
    | none => gvals key k l

/-- The group keys of all non-skipped records, in input order (duplicates
kept). -/
def keyList (key : α → Option (String × γ)) : List α → List String
  | [] => []
  | a :: l =>
    match key a with
    | some (k, _) => k :: keyList key l
    | none => keyList key l

/-- Folding the payloads of one group: the first payload goes through `one`,
later ones through `add`. -/
def accStep (one : γ → β) (add : β → γ → β) : Option β → γ → Option β
  | none, g => some (one g)
  | some b, g => some (add b g)

/-- Remove every occurrence of `k` from a list of keys. -/
def removeStr (k : String) : List String → List String
  | [] => []
  | x :: l => if x = k then removeStr k l else x :: removeStr k l

/-- Remove every element of `ks` from a list of keys. -/
def removeAll (ks : List String) : List String → List String
  | [] => []
  | x :: l => if x ∈ ks then removeAll ks l else x :: removeAll ks l

/-- Deduplicate a key list, keeping the first occurrence of each key:
the iteration order of a JS object built by that key sequence. -/
def firstSeen : List String → List String
  | [] => []
  | k :: l => k :: removeStr k (firstSeen l)

/-- `xs.map((x, i) => ...)` index pairing, starting at `n`. -/
def withIdx (n : Nat) : List α → List (Nat × α)
  | [] => []
  | a :: l => (n, a) :: withIdx (n + 1) l

/-- The payloads of all non-skipped records of a grouping loop, in input
order, across all keys. -/
def allVals (key : α → Option (String × γ)) : List α → List γ
  | [] => []
  | a :: l =>
    match key a with
    | some (_, g) => g :: allVals key l
    | none => allVals key l

/-! ### Leaderboard builder (`generateLeaderboardData`) -/

/-- The guard of the leaderboard grouping loop:
`if (!sbuName || !report.calculated_score) return;`. -/
def lbKey (r : Report) : Option (String × ℚ) :=
  match truthyS (sbuNameOf r), truthyQ r.calculated_score with
  | some sbu, some sc => some (sbu, sc)
  | _, _ => none

/-- Initialisation of one SBU group: `{ scores: [sc], totalReports: 1 }`. -/
def lbOne (sc : ℚ) : List ℚ × Nat := ([sc], 1)

/-- Extension of one SBU group: push the score, increment `totalReports`. -/
def lbAdd (b : List ℚ × Nat) (sc : ℚ) : List ℚ × Nat := (b.1 ++ [sc], b.2 + 1)

/-- `sbuScores`: scores pushed and `totalReports` incremented per kept record,
grouped by SBU name. -/
def sbuScores (reports : List Report) : List (String × (List ℚ × Nat)) :=
  groupUpd lbKey lbOne lbAdd reports

/-- The intermediate leaderboard objects `{ sbu, score, totalReports, change }`
before sorting. -/
structure LBEntry where
  sbu : String
  score : ℚ
  totalReports : Nat
  change : ℚ
  deriving DecidableEq

/-- One step of `Object.entries(sbuScores).map(([sbu, data]) => ({ sbu,
score: mean, totalReports, change: random }))`; the i-th step consumes the
i-th `Math.random()` draw. -/
def lbEntryOf (rand : Nat → ℚ) (p : Nat × (String × (List ℚ × Nat))) : LBEntry :=
  { sbu := p.2.1, score := qmean p.2.2.1, totalReports := p.2.2.2,
    change := (rand p.1 - 1 / 2) * 5 }

/-- The intermediate leaderboard array before sorting. -/
def lbEntries (rand : Nat → ℚ) (reports : List Report) : List LBEntry :=
  (withIdx 0 (sbuScores reports)).map (lbEntryOf rand)

/-- Stable insertion of an entry into a descending-by-score list: the new
element goes in front of the first element whose score it reaches, hence
behind every earlier equal-scored element. -/
def insertDesc (x : LBEntry) : List LBEntry → List LBEntry
  | [] => [x]
  | y :: ys => if y.score ≤ x.score then x :: y :: ys else y :: insertDesc x ys

/-- `.sort((a, b) => b.score - a.score)`: the stable descending sort. -/
def sortDesc (l : List LBEntry) : List LBEntry := List.foldr insertDesc [] l

/-- One emitted leaderboard row.  The source renders `change` as the string
`c > 0 ? '+' + c.toFixed(1) : c.toFixed(1)`; that string is determined by and
abstracted to the sign flag `changePos` and the 1-decimal value `change`. -/
structure LeaderboardRow where
  rank : Nat
  sbu : String
  score : ℚ
  changePos : Bool
  change : ℚ
  deriving DecidableEq

/-- The final re-map of one sorted entry: `rank = index + 1` and
`score = Number(mean.toFixed(1))`. -/
def lbRowOf (p : Nat × LBEntry) : LeaderboardRow :=
  { rank := p.1 + 1, sbu := p.2.sbu, score := toFixed1 p.2.score,
    changePos := decide ((0 : ℚ) < p.2.change), change := toFixed1 p.2.change }

/-- The leaderboard: sort the entries, then re-map with ranks. -/
def generateLeaderboardData (rand : Nat → ℚ) (reports : List Report) :
    List LeaderboardRow :=
  (withIdx 0 (sortDesc (lbEntries rand reports))).map lbRowOf

/-! ### Cross-indicator comparator (`generatePerformanceData`) -/

/-- The guard of the performance grouping loop:
`if (!sbuName || !indicator || !report.calculated_score) return;`,
keyed by indicator with payload `(sbuName, score)`. -/
def perfKey (r : Report) : Option (String × (String × ℚ)) :=
  match truthyS (sbuNameOf r), truthyS r.indicator_type,
      truthyQ r.calculated_score with
  | some sbu, some ind, some sc => some (ind, (sbu, sc))
  | _, _, _ => none

/-- Payload handling of the first kept record of an indicator: a fresh inner
object holding one SBU with one score. -/
def perfOne (g : String × ℚ) : List (String × List ℚ) := [(g.1, [g.2])]

/-- Payload handling of a later kept record of an indicator: push the score
onto that SBU's list inside the inner object. -/
def perfAdd (inner : List (String × List ℚ)) (g : String × ℚ) :
    List (String × List ℚ) :=
  updA g.1 [g.2] (fun l => l ++ [g.2]) inner

/-- `indicatorPerformance`: indicator → (SBU → list of scores). -/
def indicatorPerformance (reports : List Report) :
    List (String × List (String × List ℚ)) :=
  groupUpd perfKey perfOne perfAdd reports

/-- One comparison row: the JS object `{ indicator, [sbu]: …, rata_rata }` with
its dynamic per-SBU integer columns kept as an insertion-ordered map. -/
structure ComparisonRow where
  indicator : String
  perUnit : List (String × ℤ)
  rata_rata : ℤ
  deriving DecidableEq

/-- One comparison row built from one indicator entry: per SBU column
`Math.round` of the SBU mean, and `rata_rata` = `Math.round` of the mean of
all collected scores of the indicator (0 if there are none). -/
def perfRowOf (p : String × List (String × List ℚ)) : ComparisonRow :=
  let totalScores := List.flatten (p.2.map Prod.snd)
  { indicator := p.1,
    perUnit := p.2.map (fun q => (q.1, jsRound (qmean q.2))),
    rata_rata := if 0 < totalScores.length then jsRound (qmean totalScores)
      else 0 }

/-- The comparison table. -/
def generatePerformanceData (reports : List Report) : List ComparisonRow :=
  (indicatorPerformance reports).map perfRowOf

/-! ### Trend builder (`generateTrendData`) -/

/-- The `id-ID` short month names produced by
`toLocaleDateString('id-ID', { month: 'short' })`. -/
def monthShortId (m : Nat) : String :=
  match m with
  | 1 => "Jan" | 2 => "Feb" | 3 => "Mar" | 4 => "Apr" | 5 => "Mei" | 6 => "Jun"
  | 7 => "Jul" | 8 => "Agu" | 9 => "Sep" | 10 => "Okt" | 11 => "Nov" | 12 => "Des"
  | _ => "Invalid Date"

/-- `status === 'approved' || status === 'completed'`. -/
def isApproved (st : String) : Bool := st == "approved" || st == "completed"

/-- `status === 'rejected' || status === 'system_rejected'`. -/
def isRejected (st : String) : Bool := st == "rejected" || st == "system_rejected"

/-- One month bucket `{ total, approved, rejected }`. -/
structure TrendCell where
  total : Nat
  approved : Nat
  rejected : Nat
  deriving DecidableEq

/-- The loop body on one bucket: `total++`, then the `if / else if` on the
status. -/
def bumpCell (c : TrendCell) (st : String) : TrendCell :=
  let c1 : TrendCell := { c with total := c.total + 1 }
  if isApproved st then { c1 with approved := c1.approved + 1 }
  else if isRejected st then { c1 with rejected := c1.rejected + 1 }
  else c1

/-- The month key of a record: month name only, the year is not part of the
key.  Every record is kept (the key function is total). -/
def trendKeyOf (r : Report) : Option (String × Report) :=
  some (monthShortId r.created_month, r)

/-- Initialisation of a fresh month bucket followed by its first record. -/
def trendOne (r : Report) : TrendCell := bumpCell ⟨0, 0, 0⟩ r.status

/-- A later record falling into an existing month bucket. -/
def trendAdd (c : TrendCell) (r : Report) : TrendCell := bumpCell c r.status

/-- `monthlyData`: month name → counters, buckets in first-seen order. -/
def monthlyData (reports : List Report) : List (String × TrendCell) :=
  groupUpd trendKeyOf trendOne trendAdd reports

/-- One emitted trend point. -/
structure TrendPoint where
  month : String
  total_laporan : Nat
  approved : Nat
  rejected : Nat
  deriving DecidableEq

/-- One chart row built from one month bucket. -/
def trendPointOf (p : String × TrendCell) : TrendPoint :=
  { month := p.1, total_laporan := p.2.total, approved := p.2.approved,
    rejected := p.2.rejected }

/-- The trend series: the buckets converted to chart rows in object order. -/
def generateTrendData (reports : List Report) : List TrendPoint :=
  (monthlyData reports).map trendPointOf

/-! ### Composition builder (`generateCompositionData`) -/

/-- `report.indicator_type || 'Unknown'` (the empty string is falsy too). -/
def indicatorOrUnknown (r : Report) : String :=
  match r.indicator_type with
  | some s => if s = "" then "Unknown" else s
  | none => "Unknown"

/-- Composition grouping key: every record is kept under its (defaulted)
indicator name. -/
def compKey (r : Report) : Option (String × Unit) :=
  some (indicatorOrUnknown r, ())

/-- A fresh composition counter: `(undefined || 0) + 1`. -/
def compOne (_ : Unit) : Nat := 1

/-- An existing composition counter: `(count || 0) + 1`. -/
def compAdd (n : Nat) (_ : Unit) : Nat := n + 1

/-- `indicatorCounts`: indicator name → count. -/
def indicatorCounts (reports : List Report) : List (String × Nat) :=
  groupUpd compKey compOne compAdd reports

/-- The fixed chart palette. -/
def colors : List String :=
  ["hsl(var(--primary))", "hsl(var(--secondary))", "hsl(var(--accent))",
   "hsl(var(--desmon-primary))", "hsl(var(--desmon-secondary))"]

/-- One emitted composition slice. -/
structure CompositionSlice where
  name : String
  value : Nat
  color : String
  deriving DecidableEq

/-- One chart slice from one indexed count entry, with the palette cycling by
slice index. -/
def sliceOf (p : Nat × (String × Nat)) : CompositionSlice :=
  { name := p.2.1, value := p.2.2, color := colors.getD (p.1 % colors.length) "" }

/-- The composition: one slice per counted indicator. -/
def generateCompositionData (reports : List Report) : List CompositionSlice :=
  (withIdx 0 (indicatorCounts reports)).map sliceOf

/-! ### Observation functions used by the claim statements -/

/-- The scores that the leaderboard files under unit `u`: scores of records
with truthy unit name `u` and truthy score, in input order. -/
def lbScoresOf (u : String) (reports : List Report) : List ℚ :=
  gvals lbKey u reports

/-- The units of the kept leaderboard records, in input order with
duplicates. -/
def scoredUnits (reports : List Report) : List String :=
  keyList lbKey reports

/-- The `(sbu, score)` payloads the comparator files under indicator `ind`. -/
def indGroup (ind : String) (reports : List Report) : List (String × ℚ) :=
  gvals perfKey ind reports

/-- All scores the comparator collects for indicator `ind`, across units. -/
def indScoresOf (ind : String) (reports : List Report) : List ℚ :=
  (indGroup ind reports).map Prod.snd

/-- Inner grouping key of the comparator: an `(sbu, score)` payload keyed by
its SBU. -/
def innerKey (p : String × ℚ) : Option (String × ℚ) := some p

/-- A fresh inner score list of the comparator. -/
def innerOne (sc : ℚ) : List ℚ := [sc]

/-- Pushing onto an existing inner score list of the comparator. -/
def innerAdd (sl : List ℚ) (sc : ℚ) : List ℚ := sl ++ [sc]

/-- The inner SBU → scores object built from the payloads of one indicator. -/
def innerOf (gs : List (String × ℚ)) : List (String × List ℚ) :=
  groupUpd innerKey innerOne innerAdd gs

/-- The scores the comparator files under the cell `(ind, u)`. -/
def cellScoresOf (ind u : String) (reports : List Report) : List ℚ :=
  gvals innerKey u (indGroup ind reports)

/-- The units of the kept records of indicator `ind`, in input order with
duplicates. -/
def unitsOfIndicator (ind : String) (reports : List Report) : List String :=
  (indGroup ind reports).map Prod.fst

/-- The records in month bucket `m`, in input order. -/
def monthRecords (m : String) (reports : List Report) : List Report :=
  gvals trendKeyOf m reports

/-- The subsequence of entries with raw mean score exactly `s`: used to state
sort stability. -/
def scoreFilter (s : ℚ) : List LBEntry → List LBEntry
  | [] => []
  | e :: l => if e.score = s then e :: scoreFilter s l else scoreFilter s l

/-- A report with its `created_at` year forgotten (all other fields kept). -/
def eraseYear (r : Report) : Report := { r with created_year := 0 }

/-- A report with its score forgotten (all other fields kept). -/
def eraseScore (r : Report) : Report := { r with calculated_score := none }

/-- The deterministic part of a leaderboard row: everything except the
`Math.random`-derived change value. -/
def stripRow (row : LeaderboardRow) : Nat × String × ℚ :=
  (row.rank, row.sbu, row.score)

/-- The deterministic part of a pre-sort leaderboard entry. -/
def stripEntry (e : LBEntry) : String × ℚ × Nat :=
  (e.sbu, e.score, e.totalReports)


/-! ### Concrete inputs used by counterexamples and witnesses -/

/-- A degenerate random stream: every draw is 0. -/
def randZero : Nat → ℚ := fun _ => 0

/-- A second random stream: every draw is 1/2. -/
def randHalf : Nat → ℚ := fun _ => 1 / 2

/-- C1 input: for indicator X, unit A scores 100 once and unit B scores 0
three times. -/
def exC1 : List Report :=
  [mkReport "A" (some "X") (some 100) "approved" 2024 1,
   mkReport "B" (some "X") (some 0) "approved" 2024 1,
   mkReport "B" (some "X") (some 0) "approved" 2024 1,
   mkReport "B" (some "X") (some 0) "approved" 2024 2]

/-- C1 witness input: indicator X has unit A with one score 100 and unit B
with three scores 10, so the weighted overall mean is 32.5 (≠ the 55 an
average of unit means would give). -/
def exC1w : List Report :=
  [mkReport "A" (some "X") (some 100) "approved" 2024 1,
   mkReport "B" (some "X") (some 10) "approved" 2024 1,
   mkReport "B" (some "X") (some 10) "approved" 2024 1,
   mkReport "B" (some "X") (some 10) "approved" 2024 2]

/-- C2/C3 input: one scored record for unit A. -/
def exOneScored : List Report :=
  [mkReport "A" (some "X") (some 80) "approved" 2024 1]

/-- C3 input: a single record whose score is present and equal to 0. -/
def exZeroScore : List Report :=
  [mkReport "A" (some "X") (some 0) "approved" 2024 1]

/-- C3 witness input: a null-scored record, a zero-scored record and two
properly scored records for unit A. -/
def exC3w : List Report :=
  [mkReport "A" (some "X") (some 80) "approved" 2024 1,
   mkReport "A" (some "X") none "pending_approval" 2024 1,
   mkReport "A" (some "X") (some 0) "approved" 2024 1,
   mkReport "A" (some "X") (some 90) "approved" 2024 2]

/-- C4 input: indicator X is scored only by unit A, indicator Y only by
unit B. -/
def exC4 : List Report :=
  [mkReport "A" (some "X") (some 100) "approved" 2024 1,
   mkReport "B" (some "Y") (some 50) "approved" 2024 1]

/-- C5 input: unit A scores 100, unit B has one record with present score 0. -/
def exC5 : List Report :=
  [mkReport "A" (some "X") (some 100) "approved" 2024 1,
   mkReport "B" (some "Y") (some 0) "approved" 2024 2]

/-- C5 witness input: three units with means 50, 90 and 70. -/
def exC5w : List Report :=
  [mkReport "A" (some "X") (some 50) "approved" 2024 1,
   mkReport "B" (some "X") (some 90) "approved" 2024 1,
   mkReport "C" (some "Y") (some 70) "approved" 2024 2]

/-- C6/C7 witness input: four records over two month names (January of two
different years collides into one bucket), with mixed statuses. -/
def exTrend : List Report :=
  [mkReport "A" (some "X") (some 80) "approved" 2024 1,
   mkReport "A" (some "X") none "pending_approval" 2024 1,
   mkReport "B" (some "Y") (some 70) "rejected" 2024 2,
   mkReport "B" (some "Y") (some 60) "completed" 2023 1]

/-- The same records as `exTrend` with all years replaced. -/
def exTrendShifted : List Report :=
  [mkReport "A" (some "X") (some 80) "approved" 2020 1,
   mkReport "A" (some "X") none "pending_approval" 2021 1,
   mkReport "B" (some "Y") (some 70) "rejected" 2022 2,
   mkReport "B" (some "Y") (some 60) "completed" 2025 1]

/-- C8 witness input: two known indicators, one absent indicator. -/
def exComp : List Report :=
  [mkReport "A" (some "X") (some 80) "approved" 2024 1,
   mkReport "A" none none "queued" 2024 1,
   mkReport "B" (some "Y") (some 70) "rejected" 2024 2]

/-- The same records as `exComp` with all scores removed. -/
def exCompNoScores : List Report :=
  [mkReport "A" (some "X") none "approved" 2024 1,
   mkReport "A" none none "queued" 2024 1,
   mkReport "B" (some "Y") none "rejected" 2024 2]

/-! ### Association-list lemmas -/

theorem gvals_cons (key : α → Option (String × γ)) (k : String) (a : α) (l : List α) :
    gvals key k (a :: l) =
      match key a with
      | some (k', g) => if k' = k then g :: gvals key k l else gvals key k l
      | none => gvals key k l := rfl

theorem keyList_cons (key : α → Option (String × γ)) (a : α) (l : List α) :
    keyList key (a :: l) =
      match key a with
      | some (k, _) => k :: keyList key l
      | none => keyList key l := rfl

theorem lookupA_updA_self (k : String) (o : β) (f : β → β) :
    ∀ acc : List (String × β), lookupA k (updA k o f acc) =
      some (match lookupA k acc with | none => o | some b => f b)
  | [] => by simp [lookupA, updA]
  | p :: rest => by
    by_cases h : p.1 = k
    · simp [lookupA, updA, h]
    · simp only [lookupA, updA, if_neg h]
      exact lookupA_updA_self k o f rest

theorem lookupA_updA_ne (k k' : String) (hk : k ≠ k') (o : β) (f : β → β) :
    ∀ acc : List (String × β), lookupA k' (updA k o f acc) = lookupA k' acc
  | [] => by simp [lookupA, updA, hk]
  | p :: rest => by
    by_cases h : p.1 = k
    · simp [lookupA, updA, h, hk]
    · simp only [lookupA, updA, if_neg h]
      by_cases h' : p.1 = k'
      · simp [h']
      · simp only [if_neg h']
        exact lookupA_updA_ne k k' hk o f rest

theorem keys_updA (k : String) (o : β) (f : β → β) :
    ∀ acc : List (String × β), assocKeys (updA k o f acc) =
      if k ∈ assocKeys acc then assocKeys acc else assocKeys acc ++ [k]
  | [] => by simp [assocKeys, updA]
  | p :: rest => by
    by_cases h : p.1 = k
    · have hm : k ∈ assocKeys (p :: rest) := by
        simp only [assocKeys, List.map_cons, List.mem_cons]
        exact Or.inl h.symm
      rw [if_pos hm]
      simp [updA, h, assocKeys]
    · have hcons : updA k o f (p :: rest) = p :: updA k o f rest := by
        simp [updA, h]
      have hne : ¬ k = p.1 := fun hh => h hh.symm
      rw [hcons]
      have hkeys : assocKeys (p :: updA k o f rest) =
          p.1 :: assocKeys (updA k o f rest) := rfl
      rw [hkeys, keys_updA k o f rest]
      by_cases hm : k ∈ assocKeys rest
      · have hm2 : k ∈ assocKeys (p :: rest) := by
          simp only [assocKeys, List.map_cons, List.mem_cons]
          exact Or.inr hm
        rw [if_pos hm, if_pos hm2]
        rfl
      · have hm2 : ¬ k ∈ assocKeys (p :: rest) := by
          simp only [assocKeys, List.map_cons, List.mem_cons]
          rintro (hc | hc)
          · exact hne hc
          · exact hm hc
        rw [if_neg hm, if_neg hm2]
        rfl

theorem lookupA_gfold (key : α → Option (String × γ)) (one : γ → β)
    (add : β → γ → β) (k : String) :
    ∀ (l : List α) (acc : List (String × β)),
      lookupA k (List.foldl (gStep key one add) acc l) =
        List.foldl (accStep one add) (lookupA k acc) (gvals key k l)
  | [], acc => by simp [gvals]
  | a :: l, acc => by
    rw [List.foldl_cons]
    rcases h : key a with _ | ⟨k', g⟩
    · have h1 : gStep key one add acc a = acc := by simp [gStep, h]
      have h2 : gvals key k (a :: l) = gvals key k l := by rw [gvals_cons, h]
      rw [h1, h2]
      exact lookupA_gfold key one add k l acc
    · have h1 : gStep key one add acc a = updA k' (one g) (fun b => add b g) acc := by
        simp [gStep, h]
      by_cases hk : k' = k
      · subst hk
        have h2 : gvals key k' (a :: l) = g :: gvals key k' l := by
          rw [gvals_cons, h]; simp
        rw [h1, h2, List.foldl_cons]
        rw [lookupA_gfold key one add k' l _]
        congr 1
        rw [lookupA_updA_self]
        rcases lookupA k' acc with _ | b <;> rfl
      · have h2 : gvals key k (a :: l) = gvals key k l := by
          rw [gvals_cons, h]; simp [hk]
        rw [h1, h2]
        rw [lookupA_gfold key one add k l _]
        congr 1
        exact lookupA_updA_ne k' k hk (one g) (fun b => add b g) acc

theorem lookupA_groupUpd (key : α → Option (String × γ)) (one : γ → β)
    (add : β → γ → β) (k : String) (l : List α) :
    lookupA k (groupUpd key one add l) =
      List.foldl (accStep one add) none (gvals key k l) := by
  have h := lookupA_gfold key one add k l []
  simpa [groupUpd, lookupA] using h

theorem mem_removeStr (k x : String) :
    ∀ l : List String, x ∈ removeStr k l ↔ x ∈ l ∧ x ≠ k
  | [] => by simp [removeStr]
  | y :: l => by
    by_cases h : y = k
    · simp only [removeStr, if_pos h, List.mem_cons]
      rw [mem_removeStr k x l]
      constructor
      · rintro ⟨hx, hne⟩
        exact ⟨Or.inr hx, hne⟩
      · rintro ⟨hx | hx, hne⟩
        · exact absurd (hx.trans h) hne
        · exact ⟨hx, hne⟩
    · simp only [removeStr, if_neg h, List.mem_cons]
      rw [mem_removeStr k x l]
      constructor
      · rintro (rfl | ⟨hx, hne⟩)
        · exact ⟨Or.inl rfl, h⟩
        · exact ⟨Or.inr hx, hne⟩
      · rintro ⟨hx | hx, hne⟩
        · exact Or.inl hx
        · exact Or.inr ⟨hx, hne⟩

theorem mem_firstSeen (x : String) :
    ∀ l : List String, x ∈ firstSeen l ↔ x ∈ l
  | [] => by simp [firstSeen]
  | k :: l => by
    by_cases h : x = k
    · subst h
      simp [firstSeen]
    · simp only [firstSeen, List.mem_cons, mem_removeStr, mem_firstSeen x l]
      tauto

theorem nodup_removeStr (k : String) :
    ∀ l : List String, l.Nodup → (removeStr k l).Nodup
  | [], _ => by simp [removeStr]
  | y :: l, h => by
    rcases List.nodup_cons.1 h with ⟨hy, hl⟩
    by_cases hyk : y = k
    · simpa [removeStr, hyk] using nodup_removeStr k l hl
    · simp only [removeStr, if_neg hyk, List.nodup_cons, mem_removeStr]
      exact ⟨fun hc => hy hc.1, nodup_removeStr k l hl⟩

theorem nodup_firstSeen : ∀ l : List String, (firstSeen l).Nodup
  | [] => by simp [firstSeen]
  | k :: l => by
    simp only [firstSeen, List.nodup_cons, mem_removeStr]
    exact ⟨fun hc => hc.2 rfl, nodup_removeStr k _ (nodup_firstSeen l)⟩

theorem removeAll_nil_keys : ∀ l : List String, removeAll [] l = l
  | [] => rfl
  | x :: l => by simp [removeAll, removeAll_nil_keys l]

theorem removeAll_removeStr_mem (ks : List String) (k : String) (hk : k ∈ ks) :
    ∀ l : List String, removeAll ks (removeStr k l) = removeAll ks l
  | [] => rfl
  | x :: l => by
    by_cases hx : x = k
    · subst hx
      simp only [removeStr, if_pos rfl, removeAll, if_pos hk]
      exact removeAll_removeStr_mem ks x hk l
    · simp only [removeStr, if_neg hx, removeAll]
      by_cases hm : x ∈ ks
      · simp only [if_pos hm]
        exact removeAll_removeStr_mem ks k hk l
      · simp only [if_neg hm]
        rw [removeAll_removeStr_mem ks k hk l]

theorem removeAll_append_singleton (ks : List String) (k : String) :
    ∀ l : List String, removeAll (ks ++ [k]) l = removeAll ks (removeStr k l)
  | [] => rfl
  | x :: l => by
    by_cases hx : x = k
    · subst hx
      have hmem : x ∈ ks ++ [x] := by simp
      simp only [removeAll, if_pos hmem, removeStr, if_pos rfl]
      exact removeAll_append_singleton ks x l
    · simp only [removeStr, if_neg hx, removeAll]
      by_cases hm : x ∈ ks
      · have hmem : x ∈ ks ++ [k] := by simp [hm]
        simp only [if_pos hmem, if_pos hm]
        exact removeAll_append_singleton ks k l
      · have hmem : ¬ x ∈ ks ++ [k] := by simp [hm, hx]
        simp only [if_neg hmem, if_neg hm]
        rw [removeAll_append_singleton ks k l]

theorem keys_gfold (key : α → Option (String × γ)) (one : γ → β)
    (add : β → γ → β) :
    ∀ (l : List α) (acc : List (String × β)),
      assocKeys (List.foldl (gStep key one add) acc l) =
        assocKeys acc ++ removeAll (assocKeys acc) (firstSeen (keyList key l))
  | [], acc => by simp [keyList, firstSeen, removeAll]
  | a :: l, acc => by
    rw [List.foldl_cons]
    rcases h : key a with _ | ⟨k, g⟩
    · have h1 : gStep key one add acc a = acc := by simp [gStep, h]
      have h2 : keyList key (a :: l) = keyList key l := by rw [keyList_cons, h]
      rw [h1, h2]
      exact keys_gfold key one add l acc
    · have h1 : gStep key one add acc a = updA k (one g) (fun b => add b g) acc := by
        simp [gStep, h]
      have h2 : keyList key (a :: l) = k :: keyList key l := by rw [keyList_cons, h]
      rw [h1, h2, keys_gfold key one add l _, keys_updA]
      have hfs : firstSeen (k :: keyList key l) =
          k :: removeStr k (firstSeen (keyList key l)) := rfl
      rw [hfs]
      by_cases hm : k ∈ assocKeys acc
      · rw [if_pos hm]
        congr 1
        have hskip : removeAll (assocKeys acc)
            (k :: removeStr k (firstSeen (keyList key l))) =
            removeAll (assocKeys acc) (removeStr k (firstSeen (keyList key l))) := by
          simp [removeAll, hm]
        rw [hskip, removeAll_removeStr_mem _ k hm]
      · rw [if_neg hm]
        have hkeep : removeAll (assocKeys acc)
            (k :: removeStr k (firstSeen (keyList key l))) =
            k :: removeAll (assocKeys acc) (removeStr k (firstSeen (keyList key l))) := by
          simp [removeAll, hm]
        rw [hkeep, removeAll_append_singleton, List.append_assoc, List.singleton_append]

theorem keys_groupUpd (key : α → Option (String × γ)) (one : γ → β)
    (add : β → γ → β) (l : List α) :
    assocKeys (groupUpd key one add l) = firstSeen (keyList key l) := by
  have h := keys_gfold key one add l []
  simpa [groupUpd, assocKeys, removeAll_nil_keys] using h

theorem nodup_keys_groupUpd (key : α → Option (String × γ)) (one : γ → β)
    (add : β → γ → β) (l : List α) :
    (assocKeys (groupUpd key one add l)).Nodup := by
  rw [keys_groupUpd]
  exact nodup_firstSeen _

theorem mem_iff_lookupA (k : String) (b : β) :
    ∀ assoc : List (String × β), (assocKeys assoc).Nodup →
      ((k, b) ∈ assoc ↔ lookupA k assoc = some b)
  | [], _ => by simp [lookupA]
  | p :: rest, h => by
    have h' : p.1 ∉ assocKeys rest ∧ (assocKeys rest).Nodup := by
      have hh := h
      simp only [assocKeys, List.map_cons, List.nodup_cons] at hh
      exact hh
    by_cases hk : p.1 = k
    · simp only [lookupA, if_pos hk, List.mem_cons, Option.some_inj]
      constructor
      · rintro (rfl | hmem)
        · rfl
        · exact absurd (hk ▸ List.mem_map_of_mem Prod.fst hmem) h'.1
      · intro hb
        left
        rcases p with ⟨k1, b'⟩
        simp only at hb hk
        simp [hb, hk]
    · simp only [lookupA, if_neg hk, List.mem_cons]
      rw [mem_iff_lookupA k b rest h'.2]
      constructor
      · rintro (hc | hmem)
        · exact absurd (congrArg Prod.fst hc).symm hk
        · exact hmem
      · exact Or.inr

theorem qsum_shift : ∀ (l : List ℚ) (init : ℚ),
    List.foldl (fun a b => a + b) init l = init + qsum l
  | [], init => by simp [qsum]
  | x :: l, init => by
    show List.foldl (fun a b => a + b) (init + x) l = init + qsum (x :: l)
    rw [qsum_shift l (init + x)]
    have h : qsum (x :: l) = (0 + x) + qsum l := by
      show List.foldl (fun a b => a + b) (0 + x) l = (0 + x) + qsum l
      rw [qsum_shift l (0 + x)]
    rw [h]
    ring

theorem qsum_cons (x : ℚ) (l : List ℚ) : qsum (x :: l) = x + qsum l := by
  show List.foldl (fun a b => a + b) (0 + x) l = x + qsum l
  rw [qsum_shift l (0 + x)]
  ring

theorem qsum_append (l1 l2 : List ℚ) : qsum (l1 ++ l2) = qsum l1 + qsum l2 := by
  show List.foldl (fun a b => a + b) 0 (l1 ++ l2) = qsum l1 + qsum l2
  rw [List.foldl_append]
  rw [qsum_shift l2 (List.foldl (fun a b => a + b) 0 l1)]
  rfl

theorem qsum_singleton (x : ℚ) : qsum [x] = x := by
  simp [qsum]

theorem accStep_lb_foldl : ∀ (gs : List ℚ) (l0 : List ℚ) (n0 : Nat),
    List.foldl (accStep lbOne lbAdd) (some (l0, n0)) gs =
      some (l0 ++ gs, n0 + gs.length)
  | [], l0, n0 => by simp
  | g :: gs, l0, n0 => by
    simp only [List.foldl_cons, accStep, lbAdd]
    rw [accStep_lb_foldl gs (l0 ++ [g]) (n0 + 1)]
    simp [List.append_assoc]
    omega

theorem lookupA_sbuScores (reports : List Report) (u : String) :
    lookupA u (sbuScores reports) =
      match lbScoresOf u reports with
      | [] => none
      | g :: gs => some (g :: gs, (g :: gs).length) := by
  rw [sbuScores, lookupA_groupUpd]
  have hv : gvals lbKey u reports = lbScoresOf u reports := rfl
  rw [hv]
  rcases lbScoresOf u reports with _ | ⟨g, gs⟩
  · rfl
  · simp only [List.foldl_cons, accStep, lbOne]
    rw [accStep_lb_foldl gs [g] 1]
    simp [List.singleton_append]
    omega

theorem accStep_inner_foldl : ∀ (gs : List ℚ) (sl : List ℚ),
    List.foldl (accStep innerOne innerAdd) (some sl) gs = some (sl ++ gs)
  | [], sl => by simp
  | g :: gs, sl => by
    simp only [List.foldl_cons, accStep, innerAdd]
    rw [accStep_inner_foldl gs (sl ++ [g])]
    simp [List.append_assoc]

theorem lookupA_innerOf (gs : List (String × ℚ)) (u : String) :
    lookupA u (innerOf gs) =
      match gvals innerKey u gs with
      | [] => none
      | sc :: rest => some (sc :: rest) := by
  rw [innerOf, lookupA_groupUpd]
  rcases gvals innerKey u gs with _ | ⟨sc, rest⟩
  · rfl
  · simp only [List.foldl_cons, accStep, innerOne]
    rw [accStep_inner_foldl rest [sc]]
    simp

theorem perfAdd_eq_gStep (inner : List (String × List ℚ)) (g : String × ℚ) :
    perfAdd inner g = gStep innerKey innerOne innerAdd inner g := rfl

theorem perfOne_eq (g : String × ℚ) : perfOne g = perfAdd [] g := rfl

theorem accStep_perf_foldl : ∀ (gs : List (String × ℚ)) (inner : List (String × List ℚ)),
    List.foldl (accStep perfOne perfAdd) (some inner) gs =
      some (List.foldl perfAdd inner gs)
  | [], inner => by simp
  | g :: gs, inner => by
    simp only [List.foldl_cons, accStep]
    rw [accStep_perf_foldl gs (perfAdd inner g)]

theorem foldl_perfAdd_innerOf (gs : List (String × ℚ)) :
    List.foldl perfAdd [] gs = innerOf gs := by
  rw [innerOf, groupUpd]
  congr 1

theorem lookupA_indicatorPerformance (reports : List Report) (ind : String) :
    lookupA ind (indicatorPerformance reports) =
      match indGroup ind reports with
      | [] => none
      | g :: gs => some (innerOf (g :: gs)) := by
  rw [indicatorPerformance, lookupA_groupUpd]
  have hv : gvals perfKey ind reports = indGroup ind reports := rfl
  rw [hv]
  rcases indGroup ind reports with _ | ⟨g, gs⟩
  · rfl
  · simp only [List.foldl_cons, accStep]
    rw [accStep_perf_foldl gs (perfOne g)]
    rw [perfOne_eq, show perfAdd [] g = List.foldl perfAdd [] [g] from rfl]
    rw [← List.foldl_append perfAdd [] [g] gs, List.singleton_append]
    rw [foldl_perfAdd_innerOf]

theorem allVals_cons (key : α → Option (String × γ)) (a : α) (l : List α) :
    allVals key (a :: l) =
      match key a with
      | some (_, g) => g :: allVals key l
      | none => allVals key l := rfl

theorem accStep_some_foldl (one : γ → β) (add : β → γ → β) :
    ∀ (gs : List γ) (b : β),
      List.foldl (accStep one add) (some b) gs = some (List.foldl add b gs)
  | [], b => rfl
  | g :: gs, b => by
    rw [List.foldl_cons, List.foldl_cons]
    exact accStep_some_foldl one add gs (add b g)

theorem qsum_eq_sum : ∀ l : List ℚ, qsum l = l.sum
  | [] => rfl
  | x :: l => by rw [qsum_cons, List.sum_cons, qsum_eq_sum l]

theorem qsum_flatten : ∀ ls : List (List ℚ),
    qsum (List.flatten ls) = (ls.map qsum).sum
  | [] => rfl
  | l :: ls => by
    rw [List.flatten_cons, qsum_append, List.map_cons, List.sum_cons,
      qsum_flatten ls]

theorem sum_map_one : ∀ l : List α, (l.map (fun _ => (1 : ℕ))).sum = l.length
  | [] => rfl
  | a :: l => by
    rw [List.map_cons, List.sum_cons, sum_map_one l, List.length_cons]
    omega

theorem sum_measure_updA {M : Type} [AddCommMonoid M] (mea : β → M) (d : M)
    (k : String) (o : β) (f : β → β) (ho : mea o = d)
    (hf : ∀ b, mea (f b) = mea b + d) :
    ∀ acc : List (String × β),
      ((updA k o f acc).map (fun p => mea p.2)).sum =
        (acc.map (fun p => mea p.2)).sum + d
  | [] => by simp [updA, ho]
  | p :: rest => by
    by_cases h : p.1 = k
    · simp only [updA, if_pos h, List.map_cons, List.sum_cons]
      rw [hf p.2, add_right_comm]
    · simp only [updA, if_neg h, List.map_cons, List.sum_cons]
      rw [sum_measure_updA mea d k o f ho hf rest, ← add_assoc]

theorem sum_measure_gfold {M : Type} [AddCommMonoid M]
    (key : α → Option (String × γ)) (one : γ → β) (add : β → γ → β)
    (mea : β → M) (d : γ → M) (hone : ∀ g, mea (one g) = d g)
    (hadd : ∀ b g, mea (add b g) = mea b + d g) :
    ∀ (l : List α) (acc : List (String × β)),
      ((List.foldl (gStep key one add) acc l).map (fun p => mea p.2)).sum =
        (acc.map (fun p => mea p.2)).sum + ((allVals key l).map d).sum
  | [], acc => by simp [allVals]
  | a :: l, acc => by
    rw [List.foldl_cons]
    rcases h : key a with _ | ⟨k, g⟩
    · have h1 : gStep key one add acc a = acc := by simp [gStep, h]
      have h2 : allVals key (a :: l) = allVals key l := by rw [allVals_cons, h]
      rw [h1, h2]
      exact sum_measure_gfold key one add mea d hone hadd l acc
    · have h1 : gStep key one add acc a = updA k (one g) (fun b => add b g) acc := by
        simp [gStep, h]
      have h2 : allVals key (a :: l) = g :: allVals key l := by rw [allVals_cons, h]
      rw [h1, h2, sum_measure_gfold key one add mea d hone hadd l _]
      rw [sum_measure_updA mea (d g) k (one g) (fun b => add b g) (hone g)
        (fun b => hadd b g) acc]
      rw [List.map_cons, List.sum_cons, add_assoc]

theorem sum_measure_groupUpd {M : Type} [AddCommMonoid M]
    (key : α → Option (String × γ)) (one : γ → β) (add : β → γ → β)
    (mea : β → M) (d : γ → M) (hone : ∀ g, mea (one g) = d g)
    (hadd : ∀ b g, mea (add b g) = mea b + d g) (l : List α) :
    ((groupUpd key one add l).map (fun p => mea p.2)).sum =
      ((allVals key l).map d).sum := by
  have h := sum_measure_gfold key one add mea d hone hadd l []
  simpa [groupUpd] using h

theorem bumpCell_total (c : TrendCell) (st : String) :
    (bumpCell c st).total = c.total + 1 := by
  cases hA : isApproved st <;> cases hR : isRejected st <;> simp [bumpCell, hA, hR]

theorem bumpCell_approved (c : TrendCell) (st : String) :
    (bumpCell c st).approved = c.approved + (if isApproved st then 1 else 0) := by
  cases hA : isApproved st <;> cases hR : isRejected st <;> simp [bumpCell, hA, hR]

theorem bumpCell_rejected (c : TrendCell) (st : String) :
    (bumpCell c st).rejected =
      c.rejected + (if !isApproved st && isRejected st then 1 else 0) := by
  cases hA : isApproved st <;> cases hR : isRejected st <;> simp [bumpCell, hA, hR]

theorem approved_not_rejected (st : String) (h : isApproved st = true) :
    isRejected st = false := by
  have h2 : st = "approved" ∨ st = "completed" := by
    simpa [isApproved] using h
  rcases h2 with rfl | rfl <;> decide

theorem not_approved_and_rejected (st : String) :
    (!isApproved st && isRejected st) = isRejected st := by
  cases hA : isApproved st
  · simp
  · simp [approved_not_rejected st hA]

theorem bump_foldl_counts : ∀ (rs : List Report) (c : TrendCell),
    List.foldl trendAdd c rs =
      ⟨c.total + rs.length,
       c.approved + rs.countP (fun r => isApproved r.status),
       c.rejected + rs.countP (fun r => !isApproved r.status && isRejected r.status)⟩
  | [], c => by simp
  | r :: rs, c => by
    rw [List.foldl_cons, bump_foldl_counts rs (trendAdd c r)]
    have h1 := bumpCell_total c r.status
    have h2 := bumpCell_approved c r.status
    have h3 := bumpCell_rejected c r.status
    simp only [trendAdd] at h1 h2 h3 ⊢
    rw [h1, h2, h3, TrendCell.mk.injEq]
    refine ⟨?_, ?_, ?_⟩
    · rw [List.length_cons]
      omega
    · rw [List.countP_cons]
      cases hA : isApproved r.status <;> simp [hA] <;> omega
    · rw [List.countP_cons]
      cases hA : isApproved r.status <;> cases hR : isRejected r.status <;>
        simp [hA, hR] <;> omega

theorem lookupA_monthlyData (reports : List Report) (m : String) :
    lookupA m (monthlyData reports) =
      match monthRecords m reports with
      | [] => none
      | r :: rs => some
          ⟨(r :: rs).length,
           (r :: rs).countP (fun r => isApproved r.status),
           (r :: rs).countP (fun r => !isApproved r.status && isRejected r.status)⟩ := by
  rw [monthlyData, lookupA_groupUpd]
  have hv : gvals trendKeyOf m reports = monthRecords m reports := rfl
  rw [hv]
  rcases monthRecords m reports with _ | ⟨r, rs⟩
  · rfl
  · simp only [List.foldl_cons, accStep]
    rw [accStep_some_foldl trendOne trendAdd rs (trendOne r)]
    rw [bump_foldl_counts rs (trendOne r)]
    refine congrArg some ?_
    have h1 := bumpCell_total ⟨0, 0, 0⟩ r.status
    have h2 := bumpCell_approved ⟨0, 0, 0⟩ r.status
    have h3 := bumpCell_rejected ⟨0, 0, 0⟩ r.status
    simp only [trendOne]
    rw [h1, h2, h3, TrendCell.mk.injEq]
    dsimp only
    refine ⟨?_, ?_, ?_⟩
    · rw [List.length_cons]
      omega
    · rw [List.countP_cons]
      cases hA : isApproved r.status <;> simp [hA] <;> omega
    · rw [List.countP_cons]
      cases hA : isApproved r.status <;> cases hR : isRejected r.status <;>
        simp [hA, hR] <;> omega

theorem compAdd_foldl : ∀ (us : List Unit) (n : Nat),
    List.foldl compAdd n us = n + us.length
  | [], n => by simp
  | _ :: us, n => by
    rw [List.foldl_cons, compAdd_foldl us (compAdd n ())]
    simp only [compAdd, List.length_cons]
    omega

theorem lookupA_indicatorCounts (reports : List Report) (k : String) :
    lookupA k (indicatorCounts reports) =
      match gvals compKey k reports with
      | [] => none
      | u :: us => some ((u :: us).length) := by
  rw [indicatorCounts, lookupA_groupUpd]
  rcases gvals compKey k reports with _ | ⟨u, us⟩
  · rfl
  · simp only [List.foldl_cons, accStep]
    rw [accStep_some_foldl compOne compAdd us (compOne ())]
    rw [compAdd_foldl us (compOne ())]
    simp only [compOne, List.length_cons]
    rw [Nat.add_comm]

/-! ### Sorting lemmas -/

theorem insertDesc_perm (x : LBEntry) :
    ∀ l : List LBEntry, List.Perm (insertDesc x l) (x :: l)
  | [] => List.Perm.refl _
  | y :: ys => by
    by_cases h : y.score ≤ x.score
    · simp only [insertDesc, if_pos h]
      exact List.Perm.refl _
    · simp only [insertDesc, if_neg h]
      exact List.Perm.trans ((insertDesc_perm x ys).cons y) (List.Perm.swap x y ys)

theorem sortDesc_perm : ∀ l : List LBEntry, List.Perm (sortDesc l) l
  | [] => List.Perm.refl _
  | x :: l => by
    have h1 : sortDesc (x :: l) = insertDesc x (sortDesc l) := rfl
    rw [h1]
    exact List.Perm.trans (insertDesc_perm x (sortDesc l))
      ((sortDesc_perm l).cons x)

theorem mem_insertDesc (z x : LBEntry) (l : List LBEntry) :
    z ∈ insertDesc x l ↔ z = x ∨ z ∈ l := by
  rw [(insertDesc_perm x l).mem_iff, List.mem_cons]

theorem pairwise_insertDesc (x : LBEntry) :
    ∀ l : List LBEntry, l.Pairwise (fun a b => b.score ≤ a.score) →
      (insertDesc x l).Pairwise (fun a b => b.score ≤ a.score)
  | [], _ => by simp [insertDesc]
  | y :: ys, h => by
    rcases List.pairwise_cons.1 h with ⟨hy, hys⟩
    by_cases hxy : y.score ≤ x.score
    · simp only [insertDesc, if_pos hxy]
      refine List.pairwise_cons.2 ⟨?_, h⟩
      intro z hz
      rcases List.mem_cons.1 hz with rfl | hz
      · exact hxy
      · exact le_trans (hy z hz) hxy
    · simp only [insertDesc, if_neg hxy]
      refine List.pairwise_cons.2 ⟨?_, pairwise_insertDesc x ys hys⟩
      intro z hz
      rcases (mem_insertDesc z x ys).1 hz with rfl | hz
      · exact le_of_not_le hxy
      · exact hy z hz

theorem pairwise_sortDesc :
    ∀ l : List LBEntry, (sortDesc l).Pairwise (fun a b => b.score ≤ a.score)
  | [] => by simp [sortDesc]
  | x :: l => pairwise_insertDesc x (sortDesc l) (pairwise_sortDesc l)

theorem scoreFilter_insertDesc (s : ℚ) (x : LBEntry) :
    ∀ l : List LBEntry, scoreFilter s (insertDesc x l) =
      if x.score = s then x :: scoreFilter s l else scoreFilter s l
  | [] => by
    by_cases hx : x.score = s <;> simp [insertDesc, scoreFilter, hx]
  | y :: ys => by
    by_cases hxy : y.score ≤ x.score
    · simp only [insertDesc, if_pos hxy]
      by_cases hx : x.score = s <;> simp [scoreFilter, hx]
    · simp only [insertDesc, if_neg hxy]
      by_cases hy : y.score = s
      · by_cases hx : x.score = s
        · exact absurd (le_of_eq (hy.trans hx.symm)) hxy
        · simp only [scoreFilter, if_pos hy, if_neg hx]
          rw [scoreFilter_insertDesc s x ys]
          simp [hx]
      · by_cases hx : x.score = s
        · simp only [scoreFilter, if_neg hy, if_pos hx]
          rw [scoreFilter_insertDesc s x ys]
          simp [hx, scoreFilter, hy]
        · simp only [scoreFilter, if_neg hy, if_neg hx]
          rw [scoreFilter_insertDesc s x ys]
          simp [hx]

theorem scoreFilter_sortDesc (s : ℚ) :
    ∀ l : List LBEntry, scoreFilter s (sortDesc l) = scoreFilter s l
  | [] => rfl
  | x :: l => by
    have h1 : sortDesc (x :: l) = insertDesc x (sortDesc l) := rfl
    rw [h1, scoreFilter_insertDesc, scoreFilter_sortDesc s l]
    by_cases hx : x.score = s <;> simp [scoreFilter, hx]

theorem stripEntry_score (a b : LBEntry) (h : stripEntry a = stripEntry b) :
    a.score = b.score := by
  have := congrArg (fun p => p.2.1) h
  simpa [stripEntry] using this

theorem insertDesc_strip :
    ∀ (l1 l2 : List LBEntry) (a b : LBEntry), stripEntry a = stripEntry b →
      l1.map stripEntry = l2.map stripEntry →
      (insertDesc a l1).map stripEntry = (insertDesc b l2).map stripEntry
  | [], [], a, b, hab, _ => by simp [insertDesc, hab]
  | [], z :: zs, a, b, hab, h => by simp at h
  | y :: ys, [], a, b, hab, h => by simp at h
  | y :: ys, z :: zs, a, b, hab, h => by
    simp only [List.map_cons, List.cons.injEq] at h
    rcases h with ⟨hyz, hrest⟩
    have hsc : y.score = z.score := stripEntry_score y z hyz
    have hsc2 : a.score = b.score := stripEntry_score a b hab
    by_cases hya : y.score ≤ a.score
    · have hzb : z.score ≤ b.score := by rw [← hsc, ← hsc2]; exact hya
      simp only [insertDesc, if_pos hya, if_pos hzb, List.map_cons]
      rw [hab, hyz, hrest]
    · have hzb : ¬ z.score ≤ b.score := by rw [← hsc, ← hsc2]; exact hya
      simp only [insertDesc, if_neg hya, if_neg hzb, List.map_cons]
      rw [hyz, insertDesc_strip ys zs a b hab hrest]

theorem sortDesc_strip :
    ∀ l1 l2 : List LBEntry, l1.map stripEntry = l2.map stripEntry →
      (sortDesc l1).map stripEntry = (sortDesc l2).map stripEntry
  | [], [], _ => rfl
  | [], z :: zs, h => by simp at h
  | y :: ys, [], h => by simp at h
  | y :: ys, z :: zs, h => by
    simp only [List.map_cons, List.cons.injEq] at h
    rcases h with ⟨hyz, hrest⟩
    have h1 : sortDesc (y :: ys) = insertDesc y (sortDesc ys) := rfl
    have h2 : sortDesc (z :: zs) = insertDesc z (sortDesc zs) := rfl
    rw [h1, h2]
    exact insertDesc_strip (sortDesc ys) (sortDesc zs) y z hyz
      (sortDesc_strip ys zs hrest)

/-! ### Index-map lemmas -/

theorem withIdx_map_snd : ∀ (n : Nat) (l : List α),
    (withIdx n l).map Prod.snd = l
  | _, [] => rfl
  | n, a :: l => by
    simp only [withIdx, List.map_cons]
    rw [withIdx_map_snd (n + 1) l]

theorem length_withIdx : ∀ (n : Nat) (l : List α),
    (withIdx n l).length = l.length
  | _, [] => rfl
  | n, a :: l => by
    simp only [withIdx, List.length_cons]
    rw [length_withIdx (n + 1) l]

theorem snd_mem_of_mem_withIdx : ∀ (n : Nat) (l : List α) (p : Nat × α),
    p ∈ withIdx n l → p.2 ∈ l
  | _, [], _, h => by simp [withIdx] at h
  | n, a :: l, p, h => by
    rcases List.mem_cons.1 h with rfl | h
    · exact List.mem_cons_self _ _
    · exact List.mem_cons_of_mem _ (snd_mem_of_mem_withIdx (n + 1) l p h)

theorem mem_withIdx_of_mem : ∀ (n : Nat) (l : List α) (x : α), x ∈ l →
    ∃ i, (i, x) ∈ withIdx n l
  | _, [], _, h => by simp at h
  | n, a :: l, x, h => by
    rcases List.mem_cons.1 h with rfl | h
    · exact ⟨n, List.mem_cons_self _ _⟩
    · rcases mem_withIdx_of_mem (n + 1) l x h with ⟨i, hi⟩
      exact ⟨i, List.mem_cons_of_mem _ hi⟩

theorem withIdx_map_fst_succ : ∀ (n : Nat) (l : List α),
    (withIdx n l).map (fun p => p.1 + 1) = List.range' (n + 1) l.length
  | _, [] => rfl
  | n, a :: l => by
    simp only [withIdx, List.map_cons, List.length_cons, List.range'_succ]
    rw [withIdx_map_fst_succ (n + 1) l]

/-! ### Rounding monotonicity -/

theorem toFixed1_mono (a b : ℚ) (h : a ≤ b) : toFixed1 a ≤ toFixed1 b := by
  have h1 : a * 10 + 1 / 2 ≤ b * 10 + 1 / 2 := by linarith
  have h2 : ⌊a * 10 + 1 / 2⌋ ≤ ⌊b * 10 + 1 / 2⌋ := Int.floor_le_floor h1
  have h3 : ((⌊a * 10 + 1 / 2⌋ : ℤ) : ℚ) ≤ ((⌊b * 10 + 1 / 2⌋ : ℤ) : ℚ) := by
    exact_mod_cast h2
  simp only [toFixed1]
  linarith

/-! ### Per-builder bridging lemmas -/

theorem allVals_innerKey : ∀ gs : List (String × ℚ),
    allVals innerKey gs = gs.map Prod.snd
  | [] => rfl
  | g :: gs => by
    rw [allVals_cons]
    have h : innerKey g = some (g.1, g.2) := rfl
    rw [h, List.map_cons]
    rw [allVals_innerKey gs]

theorem keyList_innerKey : ∀ gs : List (String × ℚ),
    keyList innerKey gs = gs.map Prod.fst
  | [] => rfl
  | g :: gs => by
    rw [keyList_cons]
    have h : innerKey g = some (g.1, g.2) := rfl
    rw [h, List.map_cons]
    rw [keyList_innerKey gs]

theorem keyList_trendKey : ∀ reports : List Report,
    keyList trendKeyOf reports =
      reports.map (fun r => monthShortId r.created_month)
  | [] => rfl
  | r :: reports => by
    rw [keyList_cons]
    have h : trendKeyOf r = some (monthShortId r.created_month, r) := rfl
    rw [h, List.map_cons]
    rw [keyList_trendKey reports]

theorem allVals_trendKey : ∀ reports : List Report,
    allVals trendKeyOf reports = reports
  | [] => rfl
  | r :: reports => by
    rw [allVals_cons]
    have h : trendKeyOf r = some (monthShortId r.created_month, r) := rfl
    rw [h]
    rw [allVals_trendKey reports]

theorem keyList_compKey : ∀ reports : List Report,
    keyList compKey reports = reports.map indicatorOrUnknown
  | [] => rfl
  | r :: reports => by
    rw [keyList_cons]
    have h : compKey r = some (indicatorOrUnknown r, ()) := rfl
    rw [h, List.map_cons]
    rw [keyList_compKey reports]

theorem allVals_compKey_length : ∀ reports : List Report,
    (allVals compKey reports).length = reports.length
  | [] => rfl
  | r :: reports => by
    rw [allVals_cons]
    have h : compKey r = some (indicatorOrUnknown r, ()) := rfl
    rw [h, List.length_cons, List.length_cons]
    rw [allVals_compKey_length reports]

theorem gvals_compKey_length (k : String) : ∀ reports : List Report,
    (gvals compKey k reports).length =
      reports.countP (fun r => indicatorOrUnknown r == k)
  | [] => rfl
  | r :: reports => by
    rw [gvals_cons]
    have h : compKey r = some (indicatorOrUnknown r, ()) := rfl
    rw [h, List.countP_cons]
    dsimp only
    by_cases hk : indicatorOrUnknown r = k
    · rw [if_pos hk, List.length_cons, gvals_compKey_length k reports]
      have hb : (indicatorOrUnknown r == k) = true := by simp [hk]
      rw [hb]
      simp
    · rw [if_neg hk, gvals_compKey_length k reports]
      have hb : (indicatorOrUnknown r == k) = false := by simp [hk]
      rw [hb]
      simp

theorem withIdx_map_comp (f : Nat × α → β) (g : β → δ) (h : α → δ)
    (hc : ∀ p : Nat × α, g (f p) = h p.2) : ∀ (n : Nat) (l : List α),
      ((withIdx n l).map f).map g = l.map h
  | _, [] => rfl
  | n, a :: l => by
    simp only [withIdx, List.map_cons]
    rw [hc (n, a), withIdx_map_comp f g h hc (n + 1) l]

theorem innerOf_flat_qsum (gs : List (String × ℚ)) :
    qsum (List.flatten ((innerOf gs).map Prod.snd)) = qsum (gs.map Prod.snd) := by
  rw [qsum_flatten]
  have h1 : ((innerOf gs).map Prod.snd).map qsum =
      (innerOf gs).map (fun p => qsum p.2) := by
    rw [List.map_map]
    rfl
  rw [h1]
  have h2 := sum_measure_groupUpd innerKey innerOne innerAdd qsum (fun sc => sc)
    (fun sc => by simp [innerOne, qsum_cons, qsum]) 
    (fun sl sc => by simp [innerAdd, qsum_append, qsum_singleton]) gs
  rw [show innerOf gs = groupUpd innerKey innerOne innerAdd gs from rfl, h2]
  rw [allVals_innerKey, qsum_eq_sum, List.map_map]
  have hcomp : ((fun sc : ℚ => sc) ∘ (Prod.snd : String × ℚ → ℚ)) =
      (Prod.snd : String × ℚ → ℚ) := rfl
  rw [hcomp]

theorem innerOf_flat_length (gs : List (String × ℚ)) :
    (List.flatten ((innerOf gs).map Prod.snd)).length = gs.length := by
  rw [List.length_flatten]
  have h1 : ((innerOf gs).map Prod.snd).map List.length =
      (innerOf gs).map (fun p => p.2.length) := by
    rw [List.map_map]
    rfl
  rw [h1]
  have h2 := sum_measure_groupUpd innerKey innerOne innerAdd
    (fun sl => sl.length) (fun _ => 1)
    (fun sc => by simp [innerOne])
    (fun sl sc => by simp [innerAdd]) gs
  rw [show innerOf gs = groupUpd innerKey innerOne innerAdd gs from rfl, h2]
  rw [sum_map_one, allVals_innerKey, List.length_map]

/-! ### Row characterisations -/

theorem lbEntry_char (rand : Nat → ℚ) (reports : List Report) (e : LBEntry)
    (he : e ∈ lbEntries rand reports) :
    lbScoresOf e.sbu reports ≠ [] ∧
      e.score = qmean (lbScoresOf e.sbu reports) ∧
      e.totalReports = (lbScoresOf e.sbu reports).length := by
  rcases List.mem_map.1 he with ⟨p, hp, rfl⟩
  rcases p with ⟨i, u, scs, n⟩
  have hmem : (u, (scs, n)) ∈ sbuScores reports :=
    snd_mem_of_mem_withIdx 0 _ _ hp
  have hnd := nodup_keys_groupUpd lbKey lbOne lbAdd reports
  have hlk : lookupA u (sbuScores reports) = some (scs, n) :=
    (mem_iff_lookupA u (scs, n) (sbuScores reports) hnd).1 hmem
  rw [lookupA_sbuScores] at hlk
  rcases hgs : lbScoresOf u reports with _ | ⟨g, gs⟩
  · rw [hgs] at hlk
    exact absurd hlk (by simp)
  · rw [hgs] at hlk
    simp only [Option.some_inj, Prod.mk.injEq] at hlk
    rcases hlk with ⟨hscs, hn⟩
    subst hscs
    subst hn
    refine ⟨by show lbScoresOf u reports ≠ []; rw [hgs]; simp, ?_, ?_⟩
    · show qmean (g :: gs) = qmean (lbScoresOf u reports)
      rw [hgs]
    · show (g :: gs).length = (lbScoresOf u reports).length
      rw [hgs]

theorem lb_row_char (rand : Nat → ℚ) (reports : List Report)
    (row : LeaderboardRow) (hrow : row ∈ generateLeaderboardData rand reports) :
    lbScoresOf row.sbu reports ≠ [] ∧
      row.score = toFixed1 (qmean (lbScoresOf row.sbu reports)) := by
  rcases List.mem_map.1 hrow with ⟨p, hp, rfl⟩
  have hmem : p.2 ∈ sortDesc (lbEntries rand reports) :=
    snd_mem_of_mem_withIdx 0 _ _ hp
  have hent : p.2 ∈ lbEntries rand reports :=
    (sortDesc_perm (lbEntries rand reports)).mem_iff.1 hmem
  have hchar := lbEntry_char rand reports p.2 hent
  refine ⟨hchar.1, ?_⟩
  show toFixed1 p.2.score = toFixed1 (qmean (lbScoresOf p.2.sbu reports))
  rw [hchar.2.1]

theorem lb_unit_row_exists (rand : Nat → ℚ) (reports : List Report)
    (u : String) (h : lbScoresOf u reports ≠ []) :
    ∃ row ∈ generateLeaderboardData rand reports, row.sbu = u := by
  rcases hgs : lbScoresOf u reports with _ | ⟨g, gs⟩
  · exact absurd hgs h
  have hlk : lookupA u (sbuScores reports) = some (g :: gs, (g :: gs).length) := by
    rw [lookupA_sbuScores, hgs]
  have hnd := nodup_keys_groupUpd lbKey lbOne lbAdd reports
  have hmem : (u, (g :: gs, (g :: gs).length)) ∈ sbuScores reports :=
    (mem_iff_lookupA _ _ _ hnd).2 hlk
  rcases mem_withIdx_of_mem 0 _ _ hmem with ⟨i, hi⟩
  have hentry : lbEntryOf rand (i, (u, (g :: gs, (g :: gs).length))) ∈
      lbEntries rand reports := List.mem_map_of_mem _ hi
  have hsorted : lbEntryOf rand (i, (u, (g :: gs, (g :: gs).length))) ∈
      sortDesc (lbEntries rand reports) :=
    (sortDesc_perm (lbEntries rand reports)).mem_iff.2 hentry
  rcases mem_withIdx_of_mem 0 _ _ hsorted with ⟨j, hj⟩
  exact ⟨lbRowOf (j, lbEntryOf rand (i, (u, (g :: gs, (g :: gs).length)))),
    List.mem_map_of_mem _ hj, rfl⟩

theorem lb_out_map_sbu (rand : Nat → ℚ) (reports : List Report) :
    (generateLeaderboardData rand reports).map (fun r => r.sbu) =
      (sortDesc (lbEntries rand reports)).map (fun e => e.sbu) := by
  exact withIdx_map_comp lbRowOf (fun r => r.sbu) (fun e => e.sbu)
    (fun p => rfl) 0 _

theorem lbEntries_map_sbu (rand : Nat → ℚ) (reports : List Report) :
    (lbEntries rand reports).map (fun e => e.sbu) =
      firstSeen (scoredUnits reports) := by
  have h := withIdx_map_comp (lbEntryOf rand) (fun e => e.sbu)
    (fun q : String × (List ℚ × Nat) => q.1) (fun p => rfl) 0 (sbuScores reports)
  rw [show lbEntries rand reports =
    (withIdx 0 (sbuScores reports)).map (lbEntryOf rand) from rfl, h]
  rw [show (sbuScores reports).map (fun q : String × (List ℚ × Nat) => q.1) =
    assocKeys (sbuScores reports) from rfl]
  rw [sbuScores, keys_groupUpd]
  rfl

theorem lb_ranks (rand : Nat → ℚ) (reports : List Report) :
    (generateLeaderboardData rand reports).map (fun r => r.rank) =
      List.range' 1 (generateLeaderboardData rand reports).length := by
  rw [show generateLeaderboardData rand reports =
    (withIdx 0 (sortDesc (lbEntries rand reports))).map lbRowOf from rfl]
  rw [List.map_map]
  have hcomp : ((fun r : LeaderboardRow => r.rank) ∘ lbRowOf) =
      fun p : Nat × LBEntry => p.1 + 1 := rfl
  rw [hcomp, withIdx_map_fst_succ, List.length_map, length_withIdx]

theorem perf_row_char (reports : List Report) (row : ComparisonRow)
    (hrow : row ∈ generatePerformanceData reports) :
    indGroup row.indicator reports ≠ [] ∧
      row.perUnit = (innerOf (indGroup row.indicator reports)).map
        (fun q => (q.1, jsRound (qmean q.2))) ∧
      row.rata_rata = jsRound (qmean (indScoresOf row.indicator reports)) := by
  rcases List.mem_map.1 hrow with ⟨p, hp, rfl⟩
  rcases p with ⟨ind, inner⟩
  have hnd := nodup_keys_groupUpd perfKey perfOne perfAdd reports
  have hlk : lookupA ind (indicatorPerformance reports) = some inner :=
    (mem_iff_lookupA ind inner _ hnd).1 hp
  rw [lookupA_indicatorPerformance] at hlk
  rcases hgs : indGroup ind reports with _ | ⟨g, gs⟩
  · rw [hgs] at hlk
    exact absurd hlk (by simp)
  · rw [hgs] at hlk
    simp only [Option.some_inj] at hlk
    subst hlk
    refine ⟨?_, ?_, ?_⟩
    · show indGroup ind reports ≠ []
      rw [hgs]
      simp
    · show (innerOf (g :: gs)).map (fun q => (q.1, jsRound (qmean q.2))) =
        (innerOf (indGroup ind reports)).map (fun q => (q.1, jsRound (qmean q.2)))
      rw [hgs]
    · show (if 0 < (List.flatten ((innerOf (g :: gs)).map Prod.snd)).length
          then jsRound (qmean (List.flatten ((innerOf (g :: gs)).map Prod.snd)))
          else 0) = jsRound (qmean (indScoresOf ind reports))
      have hlen := innerOf_flat_length (g :: gs)
      have hpos : 0 < (List.flatten ((innerOf (g :: gs)).map Prod.snd)).length := by
        rw [hlen]
        simp
      rw [if_pos hpos]
      have hq : qmean (List.flatten ((innerOf (g :: gs)).map Prod.snd)) =
          qmean (indScoresOf ind reports) := by
        rw [qmean, qmean, innerOf_flat_qsum, hlen]
        rw [show indScoresOf ind reports =
          (indGroup ind reports).map Prod.snd from rfl, hgs]
        rw [List.length_map]
      rw [hq]

theorem perf_cell_char (reports : List Report) (row : ComparisonRow)
    (hrow : row ∈ generatePerformanceData reports) (u : String) (c : ℤ)
    (hc : (u, c) ∈ row.perUnit) :
    cellScoresOf row.indicator u reports ≠ [] ∧
      c = jsRound (qmean (cellScoresOf row.indicator u reports)) := by
  have hchar := perf_row_char reports row hrow
  rw [hchar.2.1] at hc
  rcases List.mem_map.1 hc with ⟨q, hq, heq⟩
  rw [Prod.mk.injEq] at heq
  have hu : q.1 = u := heq.1
  have hcv : jsRound (qmean q.2) = c := heq.2
  have hnd := nodup_keys_groupUpd innerKey innerOne innerAdd
    (indGroup row.indicator reports)
  have hlk : lookupA q.1 (innerOf (indGroup row.indicator reports)) = some q.2 := by
    refine (mem_iff_lookupA q.1 q.2 _ hnd).1 ?_
    simpa using hq
  rw [lookupA_innerOf] at hlk
  rcases hgs : gvals innerKey q.1 (indGroup row.indicator reports) with _ | ⟨sc, rest⟩
  · rw [hgs] at hlk
    exact absurd hlk (by simp)
  · rw [hgs] at hlk
    simp only [Option.some_inj] at hlk
    have hcell : cellScoresOf row.indicator u reports = sc :: rest := by
      rw [show cellScoresOf row.indicator u reports =
        gvals innerKey u (indGroup row.indicator reports) from rfl, ← hu, hgs]
    refine ⟨by rw [hcell]; simp, ?_⟩
    rw [hcell, ← hcv, hlk]

theorem perf_cell_exists (reports : List Report) (row : ComparisonRow)
    (hrow : row ∈ generatePerformanceData reports) (u : String)
    (h : cellScoresOf row.indicator u reports ≠ []) :
    ∃ c : ℤ, (u, c) ∈ row.perUnit := by
  have hchar := perf_row_char reports row hrow
  rcases hgs : cellScoresOf row.indicator u reports with _ | ⟨sc, rest⟩
  · exact absurd hgs h
  have hlk : lookupA u (innerOf (indGroup row.indicator reports)) =
      some (sc :: rest) := by
    rw [lookupA_innerOf]
    rw [show gvals innerKey u (indGroup row.indicator reports) =
      cellScoresOf row.indicator u reports from rfl, hgs]
  have hnd := nodup_keys_groupUpd innerKey innerOne innerAdd
    (indGroup row.indicator reports)
  have hmem : (u, sc :: rest) ∈ innerOf (indGroup row.indicator reports) :=
    (mem_iff_lookupA _ _ _ hnd).2 hlk
  refine ⟨jsRound (qmean (sc :: rest)), ?_⟩
  rw [hchar.2.1]
  exact List.mem_map_of_mem _ hmem

theorem perf_cols (reports : List Report) (row : ComparisonRow)
    (hrow : row ∈ generatePerformanceData reports) :
    row.perUnit.map Prod.fst =
      firstSeen (unitsOfIndicator row.indicator reports) := by
  have hchar := perf_row_char reports row hrow
  rw [hchar.2.1, List.map_map]
  have hcomp : ((Prod.fst : String × ℤ → String) ∘
      fun q : String × List ℚ => (q.1, jsRound (qmean q.2))) =
      (Prod.fst : String × List ℚ → String) := rfl
  rw [hcomp]
  rw [show (innerOf (indGroup row.indicator reports)).map Prod.fst =
    assocKeys (innerOf (indGroup row.indicator reports)) from rfl]
  rw [show innerOf (indGroup row.indicator reports) =
    groupUpd innerKey innerOne innerAdd (indGroup row.indicator reports) from rfl]
  rw [keys_groupUpd, keyList_innerKey]
  rfl

theorem countP_ext (p q : α → Bool) (h : ∀ a, p a = q a) :
    ∀ l : List α, l.countP p = l.countP q
  | [] => rfl
  | a :: l => by
    rw [List.countP_cons, List.countP_cons, h a, countP_ext p q h l]

theorem trend_point_char (reports : List Report) (pt : TrendPoint)
    (hpt : pt ∈ generateTrendData reports) :
    monthRecords pt.month reports ≠ [] ∧
      pt.total_laporan = (monthRecords pt.month reports).length ∧
      pt.approved =
        (monthRecords pt.month reports).countP (fun r => isApproved r.status) ∧
      pt.rejected =
        (monthRecords pt.month reports).countP (fun r => isRejected r.status) := by
  rcases List.mem_map.1 hpt with ⟨p, hp, rfl⟩
  rcases p with ⟨m, cell⟩
  have hnd := nodup_keys_groupUpd trendKeyOf trendOne trendAdd reports
  have hlk : lookupA m (monthlyData reports) = some cell :=
    (mem_iff_lookupA m cell _ hnd).1 hp
  rw [lookupA_monthlyData] at hlk
  rcases hgs : monthRecords m reports with _ | ⟨r, rs⟩
  · rw [hgs] at hlk
    exact absurd hlk (by simp)
  · rw [hgs] at hlk
    simp only [Option.some_inj] at hlk
    subst hlk
    refine ⟨by show monthRecords m reports ≠ []; rw [hgs]; simp, ?_, ?_, ?_⟩
    · show (r :: rs).length = (monthRecords m reports).length
      rw [hgs]
    · show (r :: rs).countP (fun r => isApproved r.status) =
        (monthRecords m reports).countP (fun r => isApproved r.status)
      rw [hgs]
    · show (r :: rs).countP (fun r => !isApproved r.status && isRejected r.status) =
        (monthRecords m reports).countP (fun r => isRejected r.status)
      rw [hgs]
      exact countP_ext _ _ (fun a : Report => not_approved_and_rejected a.status) _

theorem trend_keys (reports : List Report) :
    (generateTrendData reports).map (fun p => p.month) =
      firstSeen (reports.map (fun r => monthShortId r.created_month)) := by
  rw [show generateTrendData reports =
    (monthlyData reports).map trendPointOf from rfl, List.map_map]
  have hcomp : ((fun p : TrendPoint => p.month) ∘ trendPointOf) =
      (Prod.fst : String × TrendCell → String) := rfl
  rw [hcomp]
  rw [show (monthlyData reports).map Prod.fst =
    assocKeys (monthlyData reports) from rfl]
  rw [monthlyData, keys_groupUpd, keyList_trendKey]

theorem trend_total_sum (reports : List Report) :
    ((generateTrendData reports).map (fun p => p.total_laporan)).sum =
      reports.length := by
  rw [show generateTrendData reports =
    (monthlyData reports).map trendPointOf from rfl, List.map_map]
  have hcomp : ((fun p : TrendPoint => p.total_laporan) ∘ trendPointOf) =
      fun p : String × TrendCell => p.2.total := rfl
  rw [hcomp]
  have h := sum_measure_groupUpd trendKeyOf trendOne trendAdd
    (fun c => c.total) (fun _ => 1)
    (fun r => by
      show (bumpCell ⟨0, 0, 0⟩ r.status).total = 1
      rw [bumpCell_total])
    (fun c r => by
      show (bumpCell c r.status).total = c.total + 1
      exact bumpCell_total c r.status) reports
  rw [show monthlyData reports =
    groupUpd trendKeyOf trendOne trendAdd reports from rfl, h]
  rw [sum_map_one, allVals_trendKey]

theorem comp_slice_char (reports : List Report) (s : CompositionSlice)
    (hs : s ∈ generateCompositionData reports) :
    s.value = reports.countP (fun r => indicatorOrUnknown r == s.name) := by
  rcases List.mem_map.1 hs with ⟨p, hp, rfl⟩
  rcases p with ⟨i, nm, n⟩
  have hmem : (nm, n) ∈ indicatorCounts reports :=
    snd_mem_of_mem_withIdx 0 _ _ hp
  have hnd := nodup_keys_groupUpd compKey compOne compAdd reports
  have hlk : lookupA nm (indicatorCounts reports) = some n :=
    (mem_iff_lookupA nm n _ hnd).1 hmem
  rw [lookupA_indicatorCounts] at hlk
  rcases hgs : gvals compKey nm reports with _ | ⟨u, us⟩
  · rw [hgs] at hlk
    exact absurd hlk (by simp)
  · rw [hgs] at hlk
    simp only [Option.some_inj] at hlk
    show n = reports.countP (fun r => indicatorOrUnknown r == nm)
    rw [← gvals_compKey_length nm reports, hgs, ← hlk]

theorem comp_names (reports : List Report) :
    (generateCompositionData reports).map (fun s => s.name) =
      firstSeen (reports.map indicatorOrUnknown) := by
  have h := withIdx_map_comp sliceOf (fun s => s.name)
    (fun q : String × Nat => q.1) (fun p => rfl) 0 (indicatorCounts reports)
  rw [show generateCompositionData reports =
    (withIdx 0 (indicatorCounts reports)).map sliceOf from rfl, h]
  rw [show (indicatorCounts reports).map (fun q : String × Nat => q.1) =
    assocKeys (indicatorCounts reports) from rfl]
  rw [indicatorCounts, keys_groupUpd, keyList_compKey]

theorem comp_sum (reports : List Report) :
    ((generateCompositionData reports).map (fun s => s.value)).sum =
      reports.length := by
  have h := withIdx_map_comp sliceOf (fun s => s.value)
    (fun q : String × Nat => q.2) (fun p => rfl) 0 (indicatorCounts reports)
  rw [show generateCompositionData reports =
    (withIdx 0 (indicatorCounts reports)).map sliceOf from rfl, h]
  have h2 := sum_measure_groupUpd compKey compOne compAdd
    (fun n : Nat => n) (fun _ => 1) (fun g => rfl) (fun n g => rfl) reports
  rw [show (indicatorCounts reports).map (fun q : String × Nat => q.2) =
    (groupUpd compKey compOne compAdd reports).map (fun p => p.2) from rfl, h2]
  rw [sum_map_one, allVals_compKey_length]

/-! ### Determinism and ordering infrastructure -/

theorem lbEntries_strip (rand1 rand2 : Nat → ℚ) (reports : List Report) :
    (lbEntries rand1 reports).map stripEntry =
      (lbEntries rand2 reports).map stripEntry := by
  have h1 := withIdx_map_comp (lbEntryOf rand1) stripEntry
    (fun q : String × (List ℚ × Nat) => (q.1, qmean q.2.1, q.2.2))
    (fun p => rfl) 0 (sbuScores reports)
  have h2 := withIdx_map_comp (lbEntryOf rand2) stripEntry
    (fun q : String × (List ℚ × Nat) => (q.1, qmean q.2.1, q.2.2))
    (fun p => rfl) 0 (sbuScores reports)
  rw [show lbEntries rand1 reports =
    (withIdx 0 (sbuScores reports)).map (lbEntryOf rand1) from rfl, h1]
  rw [show lbEntries rand2 reports =
    (withIdx 0 (sbuScores reports)).map (lbEntryOf rand2) from rfl, h2]

theorem stripEntry_sbu (a b : LBEntry) (h : stripEntry a = stripEntry b) :
    a.sbu = b.sbu := by
  have := congrArg (fun p => p.1) h
  simpa [stripEntry] using this

theorem lbRows_strip : ∀ (l1 l2 : List LBEntry) (n : Nat),
    l1.map stripEntry = l2.map stripEntry →
      ((withIdx n l1).map lbRowOf).map stripRow =
        ((withIdx n l2).map lbRowOf).map stripRow
  | [], [], _, _ => rfl
  | [], z :: zs, _, h => by simp at h
  | y :: ys, [], _, h => by simp at h
  | y :: ys, z :: zs, n, h => by
    simp only [List.map_cons, List.cons.injEq] at h
    rcases h with ⟨hyz, hrest⟩
    simp only [withIdx, List.map_cons, List.cons.injEq]
    constructor
    · show (n + 1, y.sbu, toFixed1 y.score) = (n + 1, z.sbu, toFixed1 z.score)
      rw [stripEntry_sbu y z hyz, stripEntry_score y z hyz]
    · exact lbRows_strip ys zs (n + 1) hrest

theorem withIdx_pairwise (S : α → α → Prop) : ∀ (n : Nat) (l : List α),
    l.Pairwise S → (withIdx n l).Pairwise (fun p q => S p.2 q.2)
  | _, [], _ => by simp [withIdx]
  | n, a :: l, h => by
    rcases List.pairwise_cons.1 h with ⟨ha, hl⟩
    simp only [withIdx]
    refine List.pairwise_cons.2 ⟨?_, withIdx_pairwise S (n + 1) l hl⟩
    intro q hq
    exact ha q.2 (snd_mem_of_mem_withIdx _ _ _ hq)

theorem lb_sorted_scores (rand : Nat → ℚ) (reports : List Report) :
    (generateLeaderboardData rand reports).Pairwise
      (fun a b => b.score ≤ a.score) := by
  rw [show generateLeaderboardData rand reports =
    (withIdx 0 (sortDesc (lbEntries rand reports))).map lbRowOf from rfl]
  rw [List.pairwise_map]
  have h1 := withIdx_pairwise (fun a b : LBEntry => b.score ≤ a.score) 0
    (sortDesc (lbEntries rand reports)) (pairwise_sortDesc _)
  refine h1.imp ?_
  intro p q hpq
  show toFixed1 q.2.score ≤ toFixed1 p.2.score
  exact toFixed1_mono _ _ hpq

theorem lb_units_nodup (rand : Nat → ℚ) (reports : List Report) :
    ((generateLeaderboardData rand reports).map (fun r => r.sbu)).Nodup := by
  rw [lb_out_map_sbu]
  have hperm := (sortDesc_perm (lbEntries rand reports)).map (fun e : LBEntry => e.sbu)
  rw [hperm.nodup_iff, lbEntries_map_sbu]
  exact nodup_firstSeen _

theorem countP_disjoint_le : ∀ rs : List Report,
    rs.countP (fun r => isApproved r.status) +
      rs.countP (fun r => isRejected r.status) ≤ rs.length
  | [] => by simp
  | r :: rs => by
    rw [List.countP_cons, List.countP_cons, List.length_cons]
    have h := countP_disjoint_le rs
    cases hA : isApproved r.status
    · cases hR : isRejected r.status <;> simp [hA, hR] <;> omega
    · have hR := approved_not_rejected r.status hA
      simp only [hA, hR]
      simp
      omega

theorem eraseYear_month (r r' : Report) (h : eraseYear r = eraseYear r') :
    r.created_month = r'.created_month := by
  have h2 := congrArg Report.created_month h
  exact h2

theorem eraseYear_status (r r' : Report) (h : eraseYear r = eraseYear r') :
    r.status = r'.status := by
  have h2 := congrArg Report.status h
  exact h2

theorem trend_gfold_eraseYear : ∀ (l l' : List Report)
    (h : l.map eraseYear = l'.map eraseYear) (acc : List (String × TrendCell)),
    List.foldl (gStep trendKeyOf trendOne trendAdd) acc l =
      List.foldl (gStep trendKeyOf trendOne trendAdd) acc l'
  | [], [], _, _ => rfl
  | [], r' :: l', h, _ => by simp at h
  | r :: l, [], h, _ => by simp at h
  | r :: l, r' :: l', h, acc => by
    simp only [List.map_cons, List.cons.injEq] at h
    rcases h with ⟨hr, hrest⟩
    have hm := eraseYear_month r r' hr
    have hs := eraseYear_status r r' hr
    rw [List.foldl_cons, List.foldl_cons]
    have hstep : gStep trendKeyOf trendOne trendAdd acc r =
        gStep trendKeyOf trendOne trendAdd acc r' := by
      show updA (monthShortId r.created_month) (trendOne r)
          (fun c => trendAdd c r) acc =
        updA (monthShortId r'.created_month) (trendOne r')
          (fun c => trendAdd c r') acc
      rw [hm]
      rw [show trendOne r = trendOne r' from by
        show bumpCell ⟨0, 0, 0⟩ r.status = bumpCell ⟨0, 0, 0⟩ r'.status
        rw [hs]]
      rw [show (fun c => trendAdd c r) = (fun c => trendAdd c r') from by
        funext c
        show bumpCell c r.status = bumpCell c r'.status
        rw [hs]]
    rw [hstep]
    exact trend_gfold_eraseYear l l' hrest _

theorem eraseScore_indicator (r r' : Report) (h : eraseScore r = eraseScore r') :
    r.indicator_type = r'.indicator_type := by
  have h2 := congrArg Report.indicator_type h
  exact h2

theorem comp_gfold_eraseScore : ∀ (l l' : List Report)
    (h : l.map eraseScore = l'.map eraseScore) (acc : List (String × Nat)),
    List.foldl (gStep compKey compOne compAdd) acc l =
      List.foldl (gStep compKey compOne compAdd) acc l'
  | [], [], _, _ => rfl
  | [], r' :: l', h, _ => by simp at h
  | r :: l, [], h, _ => by simp at h
  | r :: l, r' :: l', h, acc => by
    simp only [List.map_cons, List.cons.injEq] at h
    rcases h with ⟨hr, hrest⟩
    have hi : r.indicator_type = r'.indicator_type := eraseScore_indicator r r' hr
    rw [List.foldl_cons, List.foldl_cons]
    have hstep : gStep compKey compOne compAdd acc r =
        gStep compKey compOne compAdd acc r' := by
      show updA (indicatorOrUnknown r) (compOne ()) (fun n => compAdd n ()) acc =
        updA (indicatorOrUnknown r') (compOne ()) (fun n => compAdd n ()) acc
      rw [show indicatorOrUnknown r = indicatorOrUnknown r' from by
        rw [indicatorOrUnknown, indicatorOrUnknown, hi]]
    rw [hstep]
    exact comp_gfold_eraseScore l l' hrest _

/-! ### Claim C1 -/

/-- C1 counterexample: on an input where unit A has one record of indicator X
scoring 100 and unit B has three records of it scoring 0, the emitted
`rata_rata` is 100, not the 25 the claim predicts: the three records whose
present score is 0 are dropped by the truthiness guard, so the "mean of all
scored records" (which is 25 after rounding) is not what the code computes. -/
theorem C1_counterexample :
    generatePerformanceData exC1 = [⟨"X", [("A", 100)], 100⟩] ∧
      jsRound (qmean [(100 : ℚ), 0, 0, 0]) = 25 ∧ (100 : ℤ) ≠ 25 := by
  refine ⟨?_, ?_, ?_⟩ <;> with_unfolding_all decide

/-- C1 (amended): for every comparison row, `rata_rata` is the half-up
rounding of the count-weighted mean of all scores the comparator keeps for
that indicator — the records with a truthy unit, truthy indicator and truthy
(present and nonzero) score — pooled across units, not the average of the
per-unit means. -/
theorem C1_rata_overall_weighted_mean (reports : List Report)
    (row : ComparisonRow) (hrow : row ∈ generatePerformanceData reports) :
    row.rata_rata = jsRound (qmean (indScoresOf row.indicator reports)) :=
  (perf_row_char reports row hrow).2.2

/-- C1 witness: with unit A scoring 100 once and unit B scoring 10 three
times, the emitted overall mean is the weighted 33 = round(32.5), not the 55
an average of the two unit means would give. -/
theorem C1_rata_overall_weighted_mean_witness :
    (⟨"X", [("A", 100), ("B", 10)], 33⟩ : ComparisonRow).rata_rata =
      jsRound (qmean (indScoresOf "X" exC1w)) :=
  C1_rata_overall_weighted_mean exC1w ⟨"X", [("A", 100), ("B", 10)], 33⟩
    (by with_unfolding_all decide)

/-! ### Claim C2 -/

/-- C2 counterexample: the leaderboard builder consumes `Math.random()` for
each row's `change` field, so two calls on the same unchanged collection
(modelled by two draws of the random stream) need not return identical
output. -/
theorem C2_counterexample :
    generateLeaderboardData randZero exOneScored ≠
      generateLeaderboardData randHalf exOneScored := by
  with_unfolding_all decide

/-- C2 (amended): apart from the `Math.random`-derived `change` field of the
leaderboard, each builder is a deterministic function of the collection: the
rank, unit and score of every leaderboard row do not depend on the random
stream (and the other three builders take no random source at all). -/
theorem C2_determinism_modulo_random (rand1 rand2 : Nat → ℚ)
    (reports : List Report) :
    (generateLeaderboardData rand1 reports).map stripRow =
      (generateLeaderboardData rand2 reports).map stripRow := by
  rw [show generateLeaderboardData rand1 reports =
    (withIdx 0 (sortDesc (lbEntries rand1 reports))).map lbRowOf from rfl]
  rw [show generateLeaderboardData rand2 reports =
    (withIdx 0 (sortDesc (lbEntries rand2 reports))).map lbRowOf from rfl]
  exact lbRows_strip _ _ 0 (sortDesc_strip _ _ (lbEntries_strip rand1 rand2 reports))

/-! ### Claim C3 -/

/-- C3 counterexample: a record whose score is present and equal to 0 does
not contribute to any mean — the truthiness guard `!report.calculated_score`
drops it, so a unit whose only record scores 0 gets no leaderboard row and no
comparison cell at all, contradicting the claim that every present numeric
score (including 0) contributes. -/
theorem C3_counterexample :
    generateLeaderboardData randZero exZeroScore = [] ∧
      generatePerformanceData exZeroScore = [] ∧
      truthyQ (some 0) = none := by
  refine ⟨?_, ?_, ?_⟩ <;> with_unfolding_all decide

/-- C3 (amended): every mean is computed over exactly the records whose score
is truthy — present and nonzero (JS `!score` also drops a 0 score): each
leaderboard row exposes the 1-decimal rounding of the mean of precisely that
unit's truthy scores, and each comparison cell the integer rounding of the
mean of precisely that (indicator, unit) pair's truthy scores; absent scores
are never treated as zero. -/
theorem C3_truthy_scores_only (rand : Nat → ℚ) (reports : List Report) :
    (∀ row ∈ generateLeaderboardData rand reports,
        lbScoresOf row.sbu reports ≠ [] ∧
        row.score = toFixed1 (qmean (lbScoresOf row.sbu reports))) ∧
      (∀ row ∈ generatePerformanceData reports, ∀ u c, (u, c) ∈ row.perUnit →
        cellScoresOf row.indicator u reports ≠ [] ∧
        c = jsRound (qmean (cellScoresOf row.indicator u reports))) := by
  constructor
  · intro row hrow
    exact lb_row_char rand reports row hrow
  · intro row hrow u c hc
    exact perf_cell_char reports row hrow u c hc

/-- C3 witness: on a unit with scores [80, null, 0, 90] the kept scores are
[80, 90] and both outputs expose their mean 85. -/
theorem C3_truthy_scores_only_witness :
    ((85 : ℚ) = toFixed1 (qmean (lbScoresOf "A" exC3w))) ∧
      ((85 : ℤ) = jsRound (qmean (cellScoresOf "X" "A" exC3w))) := by
  constructor
  · exact ((C3_truthy_scores_only randZero exC3w).1
      ⟨1, "A", 85, false, -5 / 2⟩ (by with_unfolding_all decide)).2
  · exact ((C3_truthy_scores_only randZero exC3w).2
      ⟨"X", [("A", 85)], 85⟩ (by with_unfolding_all decide)
      "A" 85 (by with_unfolding_all decide)).2

/-! ### Claim C4 -/

/-- C4 counterexample: with indicator X scored only by unit A and indicator Y
only by unit B, the row for X carries only the column "A": the column set is
per-indicator, not the union of all units observed across the input, so the
claim fails (unit B is absent from row X even though B is observed in the
input). -/
theorem C4_counterexample :
    generatePerformanceData exC4 =
      [⟨"X", [("A", 100)], 100⟩, ⟨"Y", [("B", 50)], 50⟩] ∧
      ¬ "B" ∈ (([("A", (100 : ℤ))] : List (String × ℤ)).map Prod.fst) := by
  refine ⟨?_, ?_⟩ <;> with_unfolding_all decide

/-- C4 (amended): each comparison row carries exactly the unit columns
observed with a truthy score for that row's own indicator, in first-seen
order — not the union of units across the whole input; a unit is a column of
the row iff it has at least one kept record for that indicator, so an absent
column means "no kept record for that unit and indicator", which remains
distinct from a present column whose rounded mean is 0. -/
theorem C4_columns_per_indicator (reports : List Report) (row : ComparisonRow)
    (hrow : row ∈ generatePerformanceData reports) :
    row.perUnit.map Prod.fst =
        firstSeen (unitsOfIndicator row.indicator reports) ∧
      (∀ u : String, (∃ c, (u, c) ∈ row.perUnit) ↔
        cellScoresOf row.indicator u reports ≠ []) := by
  refine ⟨perf_cols reports row hrow, fun u => ⟨?_, ?_⟩⟩
  · rintro ⟨c, hc⟩
    exact (perf_cell_char reports row hrow u c hc).1
  · intro h
    exact perf_cell_exists reports row hrow u h

/-- C4 witness: the X row of the concrete input carries exactly the column
"A". -/
theorem C4_columns_per_indicator_witness :
    ([("A", (100 : ℤ))] : List (String × ℤ)).map Prod.fst =
      firstSeen (unitsOfIndicator "X" exC4) :=
  (C4_columns_per_indicator exC4 ⟨"X", [("A", 100)], 100⟩
    (by with_unfolding_all decide)).1

/-! ### Claim C5 -/

/-- C5 counterexample: unit B has a record with a present score (0), yet the
leaderboard on this input has only the single row for unit A — and the
emitted row carries rank, unit, rounded score and the change pair only, no
report count: both the "one row per unit with at least one scored record"
reading and the `reportCount` field of the claim fail on the code. -/
theorem C5_counterexample :
    generateLeaderboardData randZero exC5 =
      [{ rank := 1, sbu := "A", score := 100, changePos := false,
         change := -5 / 2 }] ∧
      ¬ "B" ∈ (generateLeaderboardData randZero exC5).map (fun r => r.sbu) ∧
      truthyQ (some 0) = none := by
  refine ⟨?_, ?_, ?_⟩ <;> with_unfolding_all decide

/-- C5 (amended): the leaderboard has exactly one row per unit with at least
one truthy-scored record (present, nonzero): ranks are the contiguous
sequence 1..n in output order, rounded scores are descending, units are
pairwise distinct, a unit appears iff it has a kept score, the sort is stable
(entries of equal raw mean keep their relative order, which is first-seen
input order of the units), and the emitted rows carry no report count. -/
theorem C5_leaderboard_shape (rand : Nat → ℚ) (reports : List Report) :
    (generateLeaderboardData rand reports).map (fun r => r.rank) =
        List.range' 1 (generateLeaderboardData rand reports).length ∧
      (generateLeaderboardData rand reports).Pairwise
        (fun a b => b.score ≤ a.score) ∧
      ((generateLeaderboardData rand reports).map (fun r => r.sbu)).Nodup ∧
      (∀ u : String,
        u ∈ (generateLeaderboardData rand reports).map (fun r => r.sbu) ↔
          lbScoresOf u reports ≠ []) ∧
      (∀ s : ℚ, scoreFilter s (sortDesc (lbEntries rand reports)) =
        scoreFilter s (lbEntries rand reports)) ∧
      (lbEntries rand reports).map (fun e => e.sbu) =
        firstSeen (scoredUnits reports) := by
  refine ⟨lb_ranks rand reports, lb_sorted_scores rand reports,
    lb_units_nodup rand reports, ?_, fun s => scoreFilter_sortDesc s _,
    lbEntries_map_sbu rand reports⟩
  intro u
  constructor
  · intro hu
    rcases List.mem_map.1 hu with ⟨row, hrow, rfl⟩
    exact (lb_row_char rand reports row hrow).1
  · intro h
    rcases lb_unit_row_exists rand reports u h with ⟨row, hrow, hsbu⟩
    exact List.mem_map.2 ⟨row, hrow, hsbu⟩

/-! ### Claim C6 -/

/-- C6: each trend bucket counts every record of its month once in `total`,
counts `approved` exactly for statuses approved/completed and `rejected`
exactly for statuses rejected/system_rejected; the bucket totals sum to the
input size and `approved + rejected ≤ total` holds per bucket. -/
theorem C6_trend_counts (reports : List Report) :
    ((generateTrendData reports).map (fun p => p.total_laporan)).sum =
        reports.length ∧
      ∀ pt ∈ generateTrendData reports,
        pt.total_laporan = (monthRecords pt.month reports).length ∧
        pt.approved = (monthRecords pt.month reports).countP
          (fun r => isApproved r.status) ∧
        pt.rejected = (monthRecords pt.month reports).countP
          (fun r => isRejected r.status) ∧
        pt.approved + pt.rejected ≤ pt.total_laporan := by
  refine ⟨trend_total_sum reports, fun pt hpt => ?_⟩
  have h := trend_point_char reports pt hpt
  refine ⟨h.2.1, h.2.2.1, h.2.2.2, ?_⟩
  rw [h.2.1, h.2.2.1, h.2.2.2]
  exact countP_disjoint_le _

/-- C6 witness: on the concrete input the January bucket has total 3,
approved 2 (an approved and a completed record; the pending record counts
toward total only) and rejected 0. -/
theorem C6_trend_counts_witness :
    (⟨"Jan", 3, 2, 0⟩ : TrendPoint).total_laporan =
        (monthRecords "Jan" exTrend).length ∧
      (⟨"Jan", 3, 2, 0⟩ : TrendPoint).approved +
        (⟨"Jan", 3, 2, 0⟩ : TrendPoint).rejected ≤
        (⟨"Jan", 3, 2, 0⟩ : TrendPoint).total_laporan := by
  have h := (C6_trend_counts exTrend).2 ⟨"Jan", 3, 2, 0⟩
    (by with_unfolding_all decide)
  exact ⟨h.1, h.2.2.2⟩

/-! ### Claim C7 -/

/-- C7: trend buckets are keyed by month name only — any two inputs that
agree up to the records' years produce identical trend output, so same-named
months of different years share one bucket — and the emitted buckets are the
distinct occurring month names in first-occurrence order of the input. -/
theorem C7_month_only_buckets (reports reports' : List Report) :
    (reports.map eraseYear = reports'.map eraseYear →
        generateTrendData reports = generateTrendData reports') ∧
      (generateTrendData reports).map (fun p => p.month) =
        firstSeen (reports.map (fun r => monthShortId r.created_month)) := by
  constructor
  · intro h
    rw [show generateTrendData reports =
      (monthlyData reports).map trendPointOf from rfl]
    rw [show generateTrendData reports' =
      (monthlyData reports').map trendPointOf from rfl]
    rw [show monthlyData reports =
      List.foldl (gStep trendKeyOf trendOne trendAdd) [] reports from rfl]
    rw [show monthlyData reports' =
      List.foldl (gStep trendKeyOf trendOne trendAdd) [] reports' from rfl]
    rw [trend_gfold_eraseYear reports reports' h []]
  · exact trend_keys reports

/-- C7 witness: shifting every record's year leaves the trend output
unchanged, and a January 2023 record lands in the same single "Jan" bucket as
the January 2024 records (total 3), with buckets in first-occurrence order
Jan before Feb. -/
theorem C7_month_only_buckets_witness :
    generateTrendData exTrend = generateTrendData exTrendShifted ∧
      generateTrendData exTrend = [⟨"Jan", 3, 2, 0⟩, ⟨"Feb", 1, 0, 1⟩] := by
  constructor
  · exact (C7_month_only_buckets exTrend exTrendShifted).1
      (by with_unfolding_all decide)
  · with_unfolding_all decide

/-! ### Claim C8 -/

/-- C8: composition slice counts sum exactly to the input size; there is one
slice per distinct (defaulted) indicator name in first-seen order, records
with an absent indicator are counted under the "Unknown" sentinel, each slice
counts exactly the records of its name, and no score is consulted — inputs
that agree up to scores produce identical output. -/
theorem C8_composition_total_cover (reports reports' : List Report) :
    ((generateCompositionData reports).map (fun s => s.value)).sum =
        reports.length ∧
      (generateCompositionData reports).map (fun s => s.name) =
        firstSeen (reports.map indicatorOrUnknown) ∧
      (∀ s ∈ generateCompositionData reports,
        s.value = reports.countP (fun r => indicatorOrUnknown r == s.name)) ∧
      (reports.map eraseScore = reports'.map eraseScore →
        generateCompositionData reports = generateCompositionData reports') := by
  refine ⟨comp_sum reports, comp_names reports,
    fun s hs => comp_slice_char reports s hs, ?_⟩
  intro h
  rw [show generateCompositionData reports =
    (withIdx 0 (indicatorCounts reports)).map sliceOf from rfl]
  rw [show generateCompositionData reports' =
    (withIdx 0 (indicatorCounts reports')).map sliceOf from rfl]
  rw [show indicatorCounts reports =
    List.foldl (gStep compKey compOne compAdd) [] reports from rfl]
  rw [show indicatorCounts reports' =
    List.foldl (gStep compKey compOne compAdd) [] reports' from rfl]
  rw [comp_gfold_eraseScore reports reports' h []]

/-- C8 witness: on three records (indicators X, absent, Y) the slice values
sum to 3, the absent-indicator record is counted once under "Unknown", and
removing every score changes nothing. -/
theorem C8_composition_total_cover_witness :
    ((generateCompositionData exComp).map (fun s => s.value)).sum =
        exComp.length ∧
      (⟨"Unknown", 1, "hsl(var(--secondary))"⟩ : CompositionSlice).value =
        exComp.countP (fun r => indicatorOrUnknown r == "Unknown") ∧
      generateCompositionData exComp = generateCompositionData exCompNoScores := by
  refine ⟨(C8_composition_total_cover exComp exComp).1, ?_, ?_⟩
  · exact (C8_composition_total_cover exComp exComp).2.2.1
      ⟨"Unknown", 1, "hsl(var(--secondary))"⟩ (by with_unfolding_all decide)
  · exact (C8_composition_total_cover exComp exCompNoScores).2.2.2
      (by with_unfolding_all decide)

/-! ### Claim C9 -/

/-- C9: on the empty collection every builder returns the well-typed empty
list (and, being a total function, cannot fail). -/
theorem C9_empty_input :
    (∀ rand : Nat → ℚ, generateLeaderboardData rand [] = []) ∧
      generatePerformanceData [] = [] ∧
      generateTrendData [] = [] ∧
      generateCompositionData [] = [] :=
  ⟨fun _ => rfl, rfl, rfl, rfl⟩

/-! ### Claim C10 -/

/-- C10: the numeric outputs are rounded — each leaderboard row's score is
its group mean rounded half-up to one decimal place, and each comparison cell
and overall mean is the corresponding mean rounded half-up to the nearest
integer; the exact rational means are never exposed. -/
theorem C10_rounded_outputs (rand : Nat → ℚ) (reports : List Report) :
    (∀ row ∈ generateLeaderboardData rand reports,
        row.score = toFixed1 (qmean (lbScoresOf row.sbu reports))) ∧
      (∀ row ∈ generatePerformanceData reports,
        (∀ u c, (u, c) ∈ row.perUnit →
          c = jsRound (qmean (cellScoresOf row.indicator u reports))) ∧
        row.rata_rata = jsRound (qmean (indScoresOf row.indicator reports))) := by
  constructor
  · intro row hrow
    exact (lb_row_char rand reports row hrow).2
  · intro row hrow
    exact ⟨fun u c hc => (perf_cell_char reports row hrow u c hc).2,
      (perf_row_char reports row hrow).2.2⟩

/-- C10 witness: concrete rounded values — a leaderboard score of 90, a
comparison cell of 100 and an overall mean of 33 = round(32.5). -/
theorem C10_rounded_outputs_witness :
    ((90 : ℚ) = toFixed1 (qmean (lbScoresOf "B" exC5w))) ∧
      ((100 : ℤ) = jsRound (qmean (cellScoresOf "X" "A" exC1w))) ∧
      ((33 : ℤ) = jsRound (qmean (indScoresOf "X" exC1w))) := by
  refine ⟨?_, ?_, ?_⟩
  · exact (C10_rounded_outputs randZero exC5w).1
      ⟨1, "B", 90, false, -5 / 2⟩ (by with_unfolding_all decide)
  · exact ((C10_rounded_outputs randZero exC1w).2
      ⟨"X", [("A", 100), ("B", 10)], 33⟩ (by with_unfolding_all decide)).1
      "A" 100 (by with_unfolding_all decide)
  · exact ((C10_rounded_outputs randZero exC1w).2
      ⟨"X", [("A", 100), ("B", 10)], 33⟩ (by with_unfolding_all decide)).2

end Dashmon
